import Mathlib

/-!
A shallow embedding of the msgpack stream decoder (decode.go) and proofs about
the claims of its specification.

Modelling conventions:
* A wire byte is a Nat in 0..255; the byte source consumed by the decoder core
  is a List Nat.  The exact-read primitive readb models Decoder.readb at the
  byte level (a read either delivers all requested bytes or the decode aborts
  with a read fault); the one-retry mechanics of Decoder.readb over a stepwise
  source are modelled separately by readbRetry.
* Go panics raised by the unexported helpers and converted to an error by the
  deferred panicToErr at the public boundary are modelled by the Except monad:
  an Except.error value is the single error returned by DecodeValue.
* reflect.Value destinations are modelled as a pair of a GoType (the static
  type of the slot) and a GoVal (its current contents); mutation through a
  reflect.Value is modelled by threading the updated value.  Slices carry their
  backing store and visible length so that reflect.MakeSlice / SetLen /
  capacity checks keep their observable behaviour.
* float32/float64 contents are carried as the bit pattern read from the wire
  (FloatRep); IEEE-754 arithmetic and cross-width conversion are not modelled,
  and no claim depends on the numeric value of a float.
* Recursion of the value decoder is made total with a fuel parameter; running
  out of fuel yields the artificial Fault.fuel, distinct from every fault of
  the program.
-/

/-- Faults of the decoder, following the error taxonomy: read faults from the
byte source, format faults for unrecognized descriptor bytes, type faults for
wire/destination shape mismatches, field faults for unknown struct field
names, usage faults for invalid destinations, reflectPanic for panics raised
by the reflect package itself, and fuel for exhaustion of the artificial
recursion budget. -/
inductive Fault where
  | read
  | format
  | type
  | field
  | usage
  | reflectPanic
  | fuel
deriving DecidableEq, Repr

/-- The three container categories of the wire format. -/
inductive ContainerType where
  | containerRawBytes
  | containerList
  | containerMap
deriving DecidableEq, Repr

/-- Modelled from the spec: getContainerByteDesc is defined outside decode.go;
the spec (sections 3 and 6) fixes each category's triple of inline mask,
16-bit tag and 32-bit tag: raw bytes (0xa0, 0xda, 0xdb), sequence
(0x90, 0xdc, 0xdd), map (0x80, 0xde, 0xdf).  The first return value of the Go
function is discarded at its only call site in decode.go and is omitted. -/
def getContainerByteDesc : ContainerType → Nat × Nat × Nat
  | .containerRawBytes => (0xa0, 0xda, 0xdb)
  | .containerList => (0x90, 0xdc, 0xdd)
  | .containerMap => (0x80, 0xde, 0xdf)

/-- Contents of a float destination: the zero value, or the bit pattern read
from the wire by the 0xca (32-bit) or 0xcb (64-bit) branch. -/
inductive FloatRep where
  | zero
  | of32 (bits : Nat)
  | of64 (bits : Nat)
deriving DecidableEq, Repr

/-- The static types of destinations the decoder dispatches on, mirroring the
reflect.Kind switch of decodeValue.  A Go []byte is always represented by
GoType.bytes (never by GoType.slice of uint 8), matching the special-cased
byteSliceTyp of the source.  GoType.time stands for time.Time (timeTyp). -/
inductive GoType where
  | bool
  | int (w : Nat)
  | uint (w : Nat)
  | float32
  | float64
  | string
  | bytes
  | array (n : Nat) (elem : GoType)
  | slice (elem : GoType)
  | map (key : GoType) (value : GoType)
  | struct (fields : List (List Nat × GoType))
  | time
  | ptr (elem : GoType)
  | intf

/-- Runtime values held in destinations.  vSlice carries the backing store and
the visible length (len ≤ store.length; store.length is the capacity), so that
MakeSlice, SetLen and the capacity test of the growable-sequence branch keep
their observable behaviour.  vIntf holds the dynamic type and value of a
non-nil interface, or none for a nil interface. -/
inductive GoVal where
  | vBool (b : Bool)
  | vInt (w : Nat) (v : Int)
  | vUint (w : Nat) (v : Nat)
  | vFloat (r : FloatRep)
  | vString (s : List Nat)
  | vBytes (isNil : Bool) (bs : List Nat)
  | vArr (xs : List GoVal)
  | vSlice (isNil : Bool) (store : List GoVal) (len : Nat)
  | vMap (isNil : Bool) (entries : List (GoVal × GoVal))
  | vStruct (fields : List GoVal)
  | vTime (sec : Int) (nsec : Int)
  | vPtr (inner : Option GoVal)
  | vIntf (inner : Option (GoType × GoVal))

mutual

/-- Boolean equality of types (reflect type identity, used for map keys). -/
def goTypeBeq : GoType → GoType → Bool
  | .bool, .bool => true
  | .int w, .int w' => w == w'
  | .uint w, .uint w' => w == w'
  | .float32, .float32 => true
  | .float64, .float64 => true
  | .string, .string => true
  | .bytes, .bytes => true
  | .array n e, .array n' e' => n == n' && goTypeBeq e e'
  | .slice e, .slice e' => goTypeBeq e e'
  | .map k v, .map k' v' => goTypeBeq k k' && goTypeBeq v v'
  | .struct fs, .struct fs' => goFieldsBeq fs fs'
  | .time, .time => true
  | .ptr e, .ptr e' => goTypeBeq e e'
  | .intf, .intf => true
  | _, _ => false

/-- Boolean equality of struct field lists. -/
def goFieldsBeq : List (List Nat × GoType) → List (List Nat × GoType) → Bool
  | [], [] => true
  | (n, t) :: r, (n', t') :: r' => n == n' && goTypeBeq t t' && goFieldsBeq r r'
  | _, _ => false

end

mutual

/-- Boolean equality of values, the equality Go map assignment uses on keys. -/
def goValBeq : GoVal → GoVal → Bool
  | .vBool b, .vBool b' => b == b'
  | .vInt w v, .vInt w' v' => w == w' && v == v'
  | .vUint w v, .vUint w' v' => w == w' && v == v'
  | .vFloat r, .vFloat r' => r == r'
  | .vString s, .vString s' => s == s'
  | .vBytes a bs, .vBytes a' bs' => a == a' && bs == bs'
  | .vArr xs, .vArr ys => goValListBeq xs ys
  | .vSlice a st l, .vSlice a' st' l' => a == a' && goValListBeq st st' && l == l'
  | .vMap a es, .vMap a' es' => a == a' && goEntriesBeq es es'
  | .vStruct fs, .vStruct fs' => goValListBeq fs fs'
  | .vTime a b, .vTime a' b' => a == a' && b == b'
  | .vPtr none, .vPtr none => true
  | .vPtr (some v), .vPtr (some v') => goValBeq v v'
  | .vIntf none, .vIntf none => true
  | .vIntf (some (t, v)), .vIntf (some (t', v')) => goTypeBeq t t' && goValBeq v v'
  | _, _ => false

/-- Boolean equality of value lists. -/
def goValListBeq : List GoVal → List GoVal → Bool
  | [], [] => true
  | x :: xs, y :: ys => goValBeq x y && goValListBeq xs ys
  | _, _ => false

/-- Boolean equality of map entry lists. -/
def goEntriesBeq : List (GoVal × GoVal) → List (GoVal × GoVal) → Bool
  | [], [] => true
  | (k, v) :: es, (k', v') :: es' => goValBeq k k' && goValBeq v v' && goEntriesBeq es es'
  | _, _ => false

end

mutual

/-- The zero value of a type (reflect.Zero). -/
def zeroVal : GoType → GoVal
  | .bool => .vBool false
  | .int w => .vInt w 0
  | .uint w => .vUint w 0
  | .float32 => .vFloat .zero
  | .float64 => .vFloat .zero
  | .string => .vString []
  | .bytes => .vBytes true []
  | .array n elem => .vArr (List.replicate n (zeroVal elem))
  | .slice _ => .vSlice true [] 0
  | .map _ _ => .vMap true []
  | .struct fs => .vStruct (zeroFields fs)
  | .time => .vTime 0 0
  | .ptr _ => .vPtr none
  | .intf => .vIntf none

/-- Zero values of a struct's fields. -/
def zeroFields : List (List Nat × GoType) → List GoVal
  | [] => []
  | (_, t) :: rest => zeroVal t :: zeroFields rest

end

/-- n copies of a zero value (a freshly made backing store). -/
def zeroRep (n : Nat) (t : GoType) : List GoVal := List.replicate n (zeroVal t)

/-- Big-endian value of a byte list (binary.BigEndian). -/
def beNat (bs : List Nat) : Nat := bs.foldl (fun a b => a * 256 + b) 0

/-- Reinterpret a byte as a signed 8-bit integer (Go int8 conversion). -/
def sInt8 (b : Nat) : Int := if b < 0x80 then (b : Int) else (b : Int) - 0x100

/-- Reinterpret a 16-bit value as signed (Go int16 conversion). -/
def sInt16 (b : Nat) : Int := if b < 0x8000 then (b : Int) else (b : Int) - 0x10000

/-- Reinterpret a 32-bit value as signed (Go int32 conversion). -/
def sInt32 (b : Nat) : Int :=
  if b < 0x80000000 then (b : Int) else (b : Int) - 0x100000000

/-- Reinterpret a 64-bit value as signed (Go int64 conversion). -/
def sInt64 (b : Nat) : Int :=
  if b < 0x8000000000000000 then (b : Int) else (b : Int) - 0x10000000000000000

/-- Truncate a signed value to a signed width w, as reflect.Value.SetInt
stores into an int8/16/32/64 slot. -/
def wrapSigned (w : Nat) (x : Int) : Int :=
  (x + 2 ^ (w - 1)) % (2 ^ w : Nat) - 2 ^ (w - 1)

/-- Truncate an unsigned value to width w, as reflect.Value.SetUint does. -/
def wrapUnsigned (w : Nat) (x : Nat) : Nat := x % 2 ^ w

/-- Decoder.readb over the byte-list abstraction of the source: delivers
exactly n bytes, or the decode aborts with a read fault.  The one-retry
mechanics over a stepwise source are modelled by readbRetry below. -/
def readb (n : Nat) (s : List Nat) : Except Fault (List Nat × List Nat) :=
  if n ≤ s.length then .ok (s.take n, s.drop n) else .error .read

/-- Decoder.readUint8. -/
def readUint8 (s : List Nat) : Except Fault (Nat × List Nat) := do
  let (bs, s) ← readb 1 s
  pure (beNat bs, s)

/-- Decoder.readUint16 (big-endian). -/
def readUint16 (s : List Nat) : Except Fault (Nat × List Nat) := do
  let (bs, s) ← readb 2 s
  pure (beNat bs, s)

/-- Decoder.readUint32 (big-endian). -/
def readUint32 (s : List Nat) : Except Fault (Nat × List Nat) := do
  let (bs, s) ← readb 4 s
  pure (beNat bs, s)

/-- Decoder.readUint64 (big-endian). -/
def readUint64 (s : List Nat) : Except Fault (Nat × List Nat) := do
  let (bs, s) ← readb 8 s
  pure (beNat bs, s)

/-- Decoder.readContainerLen: bd is the descriptor byte (read here when
readDesc is set; every call site of decode.go passes false).  Looks up the
category's (inline mask b0, 16-bit tag b1, 32-bit tag b2); if bd equals b1 the
length is the next 2 bytes big-endian, if bd equals b2 the next 4 bytes
big-endian, else if b0 AND bd equals b0 the length is b0 XOR bd, and otherwise
the descriptor is unrecognized (format fault). -/
def readContainerLen (bd0 : Nat) (readDesc : Bool) (ct : ContainerType)
    (s0 : List Nat) : Except Fault (Int × List Nat) := do
  let (bd, s) ←
    if readDesc then do
      let (bs, s) ← readb 1 s0
      pure (bs.headD 0, s)
    else pure (bd0, s0)
  let (b0, b1, b2) := getContainerByteDesc ct
  if bd = b1 then do
    let (x, s) ← readUint16 s
    pure ((x : Int), s)
  else if bd = b2 then do
    let (x, s) ← readUint32 s
    pure ((x : Int), s)
  else if b0 &&& bd = b0 then
    pure (((b0 ^^^ bd : Nat) : Int), s)
  else
    .error .format

/-- The parent key/index handed to a container resolver: nil for a top-level
slot, a slice index, or a map key. -/
inductive ParentKey where
  | noKey
  | idx (j : Nat)
  | key (k : GoVal)

/-- A DecoderContainerResolver: given the parent container (none models the
invalid reflect.Value of a context-free call), the parent key or index, the
container length and category, produce a concrete destination (type and
value), or none for an invalid reflect.Value. -/
def Resolver : Type :=
  Option (GoType × GoVal) → ParentKey → Int → ContainerType → Option (GoType × GoVal)

/-- SimpleDecoderContainerResolver: the option set of the default resolver. -/
structure SimpleDecoderContainerResolver where
  MapType : Option GoType
  SliceType : Option GoType
  BytesStringLiteral : Bool
  BytesStringSliceElement : Bool
  BytesStringMapValue : Bool

/-- reflect.MakeMap for a configured map type. -/
def makeMapVal : GoType → GoVal := fun _ => .vMap false []

/-- reflect.MakeSlice t length length: a slice of length = capacity = the
container length, filled with zero values of the element type. -/
def makeSliceVal (t : GoType) (len : Int) : GoVal :=
  match t with
  | .slice e => .vSlice false (zeroRep len.toNat e) len.toNat
  | _ => .vSlice false [] 0

/-- SimpleDecoderContainerResolver.DecoderContainer: maps become the
configured map type (default map with open keys and values), lists the
configured slice type (default slice of open elements) pre-sized to length,
and raw bytes become a pointer to a fresh string or a pre-sized byte slice,
chosen by BytesStringLiteral when the parent is the invalid value,
BytesStringSliceElement when the parent is a slice, BytesStringMapValue when
the parent is a map. -/
def SimpleDecoderContainerResolver.DecoderContainer
    (d : SimpleDecoderContainerResolver) (parent : Option (GoType × GoVal))
    (_ : ParentKey) (length : Int) (ct : ContainerType) : Option (GoType × GoVal) :=
  match ct with
  | .containerMap =>
    match d.MapType with
    | some t => some (t, makeMapVal t)
    | none => some (.map .intf .intf, .vMap false [])
  | .containerList =>
    match d.SliceType with
    | some t => some (t, makeSliceVal t length)
    | none => some (.slice .intf, makeSliceVal (.slice .intf) length)
  | .containerRawBytes =>
    let wantString :=
      match parent with
      | none => d.BytesStringLiteral
      | some (.slice _, _) => d.BytesStringSliceElement
      | some (.bytes, _) => d.BytesStringSliceElement
      | some (.map _ _, _) => d.BytesStringMapValue
      | some _ => false
    if wantString then some (.ptr .string, .vPtr (some (.vString [])))
    else some (.bytes, .vBytes false (List.replicate length.toNat 0))

/-- The resolver function of a SimpleDecoderContainerResolver. -/
def simpleResolve (d : SimpleDecoderContainerResolver) : Resolver :=
  fun parent pk length ct => d.DecoderContainer parent pk length ct

/-- DefaultDecoderContainerResolver: all three string flags set, no
configured map or slice type. -/
def DefaultDecoderContainerResolver : SimpleDecoderContainerResolver :=
  { MapType := none, SliceType := none, BytesStringLiteral := true,
    BytesStringSliceElement := true, BytesStringMapValue := true }

/-- The default resolver function. -/
def defaultResolver : Resolver := simpleResolve DefaultDecoderContainerResolver

/-- Result of nilIntfDecode: the new contents of the interface slot, the
inner value rv was re-pointed to (some only in the raw-bytes container case
with setContainers, where the source does rv.Set then rv = rv.Elem()), the
descriptor byte, the container category and length, and the handled flag.
When handled is true the category field is never consulted by any caller (it
mirrors the zero value of the Go named return). -/
structure NIDRes where
  slot : GoVal
  inner : Option (GoType × GoVal)
  bd : Nat
  ct : ContainerType
  containerLen : Int
  handled : Bool

/-- Decoder.nilIntfDecode: decode a descriptor aimed at a nil interface.
Scalar tags set the slot directly and are handled; container tags read the
length (when not already known) and, when setContainers is set, install the
resolver's choice of destination; any other tag is a format fault. -/
def nilIntfDecode (dam : Resolver) (bd0 : Nat) (containerLen0 : Int)
    (readDesc : Bool) (setContainers : Bool) (rv0 : GoVal) (s0 : List Nat) :
    Except Fault (NIDRes × List Nat) := do
  let (bd, s) ←
    if readDesc then do
      let (bs, s) ← readb 1 s0
      pure (bs.headD 0, s)
    else pure (bd0, s0)
  if bd = 0xc0 then
    pure ({ slot := rv0, inner := none, bd := bd, ct := .containerRawBytes,
            containerLen := containerLen0, handled := true }, s)
  else if bd = 0xc2 then
    pure ({ slot := .vIntf (some (.bool, .vBool false)), inner := none, bd := bd,
            ct := .containerRawBytes, containerLen := containerLen0, handled := true }, s)
  else if bd = 0xc3 then
    pure ({ slot := .vIntf (some (.bool, .vBool true)), inner := none, bd := bd,
            ct := .containerRawBytes, containerLen := containerLen0, handled := true }, s)
  else if bd = 0xca then do
    let (x, s) ← readUint32 s
    pure ({ slot := .vIntf (some (.float32, .vFloat (.of32 x))), inner := none, bd := bd,
            ct := .containerRawBytes, containerLen := containerLen0, handled := true }, s)
  else if bd = 0xcb then do
    let (x, s) ← readUint64 s
    pure ({ slot := .vIntf (some (.float64, .vFloat (.of64 x))), inner := none, bd := bd,
            ct := .containerRawBytes, containerLen := containerLen0, handled := true }, s)
  else if bd = 0xcc then do
    let (x, s) ← readUint8 s
    pure ({ slot := .vIntf (some (.uint 8, .vUint 8 x)), inner := none, bd := bd,
            ct := .containerRawBytes, containerLen := containerLen0, handled := true }, s)
  else if bd = 0xcd then do
    let (x, s) ← readUint16 s
    pure ({ slot := .vIntf (some (.uint 16, .vUint 16 x)), inner := none, bd := bd,
            ct := .containerRawBytes, containerLen := containerLen0, handled := true }, s)
  else if bd = 0xce then do
    let (x, s) ← readUint32 s
    pure ({ slot := .vIntf (some (.uint 32, .vUint 32 x)), inner := none, bd := bd,
            ct := .containerRawBytes, containerLen := containerLen0, handled := true }, s)
  else if bd = 0xcf then do
    let (x, s) ← readUint64 s
    pure ({ slot := .vIntf (some (.uint 64, .vUint 64 x)), inner := none, bd := bd,
            ct := .containerRawBytes, containerLen := containerLen0, handled := true }, s)
  else if bd = 0xd0 then do
    let (x, s) ← readUint8 s
    pure ({ slot := .vIntf (some (.int 8, .vInt 8 (sInt8 x))), inner := none, bd := bd,
            ct := .containerRawBytes, containerLen := containerLen0, handled := true }, s)
  else if bd = 0xd1 then do
    let (x, s) ← readUint16 s
    pure ({ slot := .vIntf (some (.int 16, .vInt 16 (sInt16 x))), inner := none, bd := bd,
            ct := .containerRawBytes, containerLen := containerLen0, handled := true }, s)
  else if bd = 0xd2 then do
    let (x, s) ← readUint32 s
    pure ({ slot := .vIntf (some (.int 32, .vInt 32 (sInt32 x))), inner := none, bd := bd,
            ct := .containerRawBytes, containerLen := containerLen0, handled := true }, s)
  else if bd = 0xd3 then do
    let (x, s) ← readUint64 s
    pure ({ slot := .vIntf (some (.int 64, .vInt 64 (sInt64 x))), inner := none, bd := bd,
            ct := .containerRawBytes, containerLen := containerLen0, handled := true }, s)
  else if bd = 0xda ∨ bd = 0xdb ∨ (0xa0 ≤ bd ∧ bd ≤ 0xbf) then do
    let ct := ContainerType.containerRawBytes
    let (containerLen, s) ←
      if containerLen0 < 0 then readContainerLen bd false ct s
      else pure (containerLen0, s)
    if setContainers then
      match dam none .noKey containerLen ct with
      | some (it, iv) =>
        pure ({ slot := .vIntf (some (it, iv)), inner := some (it, iv), bd := bd,
                ct := ct, containerLen := containerLen, handled := false }, s)
      | none => .error .reflectPanic
    else
      pure ({ slot := rv0, inner := none, bd := bd, ct := ct,
              containerLen := containerLen, handled := false }, s)
  else if bd = 0xdc ∨ bd = 0xdd ∨ (0x90 ≤ bd ∧ bd ≤ 0x9f) then do
    let ct := ContainerType.containerList
    let (containerLen, s) ←
      if containerLen0 < 0 then readContainerLen bd false ct s
      else pure (containerLen0, s)
    if setContainers then
      match dam none .noKey containerLen ct with
      | some (it, iv) =>
        pure ({ slot := .vIntf (some (it, iv)), inner := none, bd := bd,
                ct := ct, containerLen := containerLen, handled := false }, s)
      | none => .error .reflectPanic
    else
      pure ({ slot := rv0, inner := none, bd := bd, ct := ct,
              containerLen := containerLen, handled := false }, s)
  else if bd = 0xde ∨ bd = 0xdf ∨ (0x80 ≤ bd ∧ bd ≤ 0x8f) then do
    let ct := ContainerType.containerMap
    let (containerLen, s) ←
      if containerLen0 < 0 then readContainerLen bd false ct s
      else pure (containerLen0, s)
    if setContainers then
      match dam none .noKey containerLen ct with
      | some (it, iv) =>
        pure ({ slot := .vIntf (some (it, iv)), inner := none, bd := bd,
                ct := ct, containerLen := containerLen, handled := false }, s)
      | none => .error .reflectPanic
    else
      pure ({ slot := rv0, inner := none, bd := bd, ct := ct,
              containerLen := containerLen, handled := false }, s)
  else if (0xe0 ≤ bd ∧ bd ≤ 0xff) ∨ bd ≤ 0x7f then
    pure ({ slot := .vIntf (some (.int 8, .vInt 8 (sInt8 bd))), inner := none, bd := bd,
            ct := .containerRawBytes, containerLen := containerLen0, handled := true }, s)
  else
    .error .format

/-- Result of decodeValue: whether the destination was a nil interface, the
new contents of the destination slot, and the reflect.Value rv the function
returns (its type and contents; after the nil-interface raw-bytes path rv is
the inner pointer-to-string or byte slice rather than the slot itself). -/
structure DVRes where
  wasNilIntf : Bool
  slot : GoVal
  rvTy : GoType
  rvVal : GoVal

/-- Result of decodeValueT: the returned reflect.Value rvn (type and
contents) and the new contents of the destination slot rve. -/
structure DVTRes where
  rvnTy : GoType
  rvnVal : GoVal
  rveVal : GoVal

/-- rve.Set(rv): storing a typed value into a slot; an interface slot wraps
the value with its dynamic type (an interface stored into an interface slot
transfers the held pair). -/
def assignTo (rveTy : GoType) (rvTy : GoType) (rvVal : GoVal) : GoVal :=
  match rveTy, rvTy with
  | .intf, .intf => rvVal
  | .intf, _ => .vIntf (some (rvTy, rvVal))
  | _, _ => rvVal

/-- Go map lookup (reflect.Value.MapIndex). -/
def lookupEntry : List (GoVal × GoVal) → GoVal → Option GoVal
  | [], _ => none
  | (k, v) :: rest, key => if goValBeq k key then some v else lookupEntry rest key

/-- Go map assignment (reflect.Value.SetMapIndex): replace the entry with an
equal key, or append a new entry. -/
def setEntry : List (GoVal × GoVal) → GoVal → GoVal → List (GoVal × GoVal)
  | [], key, v => [(key, v)]
  | (k, v0) :: rest, key, v =>
    if goValBeq k key then (k, v) :: rest else (k, v0) :: setEntry rest key v

/-- Modelled from the spec: getStructFieldInfos and getForEncName live
outside decode.go; the spec says the field mapper resolves a wire field name
to a field location and an unresolved name is a field fault.  Fields are
looked up by name in declaration order. -/
def fieldIndex : List (List Nat × GoType) → List Nat → Option Nat
  | [], _ => none
  | (nm, _) :: rest, name =>
    if nm = name then some 0 else (fieldIndex rest name).map (· + 1)

/-- The parent container value handed to the resolver from the element loop
(the current slice with its visible length, or the current array). -/
def mkParentVal (parentTy : GoType) (store : List GoVal) (plen : Nat) : GoVal :=
  match parentTy with
  | .slice _ => .vSlice false store plen
  | _ => .vArr store

/-- SetBool on a destination slot; panics unless the slot kind is Bool. -/
def setBoolV (ty : GoType) (b : Bool) : Except Fault GoVal :=
  match ty with
  | .bool => .ok (.vBool b)
  | _ => .error .reflectPanic

/-- SetInt on a destination slot; truncates to the slot's width and panics
unless the slot kind is a signed integer. -/
def setIntV (ty : GoType) (x : Int) : Except Fault GoVal :=
  match ty with
  | .int w => .ok (.vInt w (wrapSigned w x))
  | _ => .error .reflectPanic

/-- SetUint on a destination slot; truncates to the slot's width and panics
unless the slot kind is an unsigned integer. -/
def setUintV (ty : GoType) (x : Nat) : Except Fault GoVal :=
  match ty with
  | .uint w => .ok (.vUint w (wrapUnsigned w x))
  | _ => .error .reflectPanic

/-- SetFloat on a destination slot; panics unless the slot kind is a float. -/
def setFloatV (ty : GoType) (r : FloatRep) : Except Fault GoVal :=
  match ty with
  | .float32 => .ok (.vFloat r)
  | .float64 => .ok (.vFloat r)
  | _ => .error .reflectPanic

/-- The Bool/Int/Uint/Float arm of decodeValue's kind switch: exact-width
reads for the recognized scalar tags, then the single-byte fixnum fallback
restricted by the destination's signedness, and a format fault otherwise. -/
def decodeScalar (bd : Nat) (ty : GoType) (s : List Nat) :
    Except Fault (GoVal × List Nat) :=
  if bd = 0xc2 then do
    let v ← setBoolV ty false
    pure (v, s)
  else if bd = 0xc3 then do
    let v ← setBoolV ty true
    pure (v, s)
  else if bd = 0xca then do
    let (x, s) ← readUint32 s
    let v ← setFloatV ty (.of32 x)
    pure (v, s)
  else if bd = 0xcb then do
    let (x, s) ← readUint64 s
    let v ← setFloatV ty (.of64 x)
    pure (v, s)
  else if bd = 0xcc then do
    let (x, s) ← readUint8 s
    let v ← setUintV ty x
    pure (v, s)
  else if bd = 0xcd then do
    let (x, s) ← readUint16 s
    let v ← setUintV ty x
    pure (v, s)
  else if bd = 0xce then do
    let (x, s) ← readUint32 s
    let v ← setUintV ty x
    pure (v, s)
  else if bd = 0xcf then do
    let (x, s) ← readUint64 s
    let v ← setUintV ty x
    pure (v, s)
  else if bd = 0xd0 then do
    let (x, s) ← readUint8 s
    let v ← setIntV ty (sInt8 x)
    pure (v, s)
  else if bd = 0xd1 then do
    let (x, s) ← readUint16 s
    let v ← setIntV ty (sInt16 x)
    pure (v, s)
  else if bd = 0xd2 then do
    let (x, s) ← readUint32 s
    let v ← setIntV ty (sInt32 x)
    pure (v, s)
  else if bd = 0xd3 then do
    let (x, s) ← readUint64 s
    let v ← setIntV ty (sInt64 x)
    pure (v, s)
  else
    match ty with
    | .int _ =>
      if bd ≤ 0x7f ∨ (0xe0 ≤ bd ∧ bd ≤ 0xff) then do
        let v ← setIntV ty (sInt8 bd)
        pure (v, s)
      else .error .format
    | .uint _ =>
      if bd ≤ 0x7f then do
        let v ← setUintV ty bd
        pure (v, s)
      else .error .format
    | _ => .error .format

/-- xs with every index at or beyond j reset to the zero value of elemTy (the
trailing-slot loop of the fixed-array branch). -/
def zeroFromIdx (xs : List GoVal) (j : Nat) (elemTy : GoType) : List GoVal :=
  xs.take j ++ zeroRep (xs.length - j) elemTy

/-- The generic element loop of the sequence branch: decode one element per
index with the step function, writing each result at its index. -/
def listLoop (step : Nat → List GoVal → List Nat → Except Fault (GoVal × List Nat)) :
    List GoVal → Nat → Nat → List Nat → Except Fault (List GoVal × List Nat)
  | store, _, 0, s => .ok (store, s)
  | store, j, c + 1, s => do
    let (x, s) ← step j store s
    listLoop step (store.set j x) (j + 1) c s

/-- The generic pair loop of the map branch: decode one key/value pair per
iteration with the step function and write it back into the entry list. -/
def pairLoop (step : List (GoVal × GoVal) → List Nat → Except Fault ((GoVal × GoVal) × List Nat)) :
    List (GoVal × GoVal) → Nat → List Nat → Except Fault (List (GoVal × GoVal) × List Nat)
  | entries, 0, s => .ok (entries, s)
  | entries, c + 1, s => do
    let (kv, s) ← step entries s
    pairLoop step (setEntry entries kv.1 kv.2) c s

/-- The generic pair loop of the struct branch: resolve one field index and
its decoded value per iteration and write it into the field list. -/
def structLoop (step : List GoVal → List Nat → Except Fault ((Nat × GoVal) × List Nat)) :
    List GoVal → Nat → List Nat → Except Fault (List GoVal × List Nat)
  | fvals, 0, s => .ok (fvals, s)
  | fvals, c + 1, s => do
    let (iv, s) ← step fvals s
    structLoop step (fvals.set iv.1 iv.2) c s

/-- The wasNilIntf test of decodeValue: the destination kind is Interface
and the interface is nil. -/
def isNilIntfSlot : GoType → GoVal → Bool
  | .intf, .vIntf none => true
  | _, _ => false

mutual

/-- Decoder.decodeValue: read the descriptor when requested, run the
nil-interface protocol for an unset open destination, then dispatch on the
destination's kind (the body of the kind switch is decodeBody). -/
def decodeValue (dam : Resolver) (fuel : Nat) (bd0 : Nat) (containerLen : Int)
    (readDesc : Bool) (ty : GoType) (v : GoVal) (s0 : List Nat) :
    Except Fault (DVRes × List Nat) :=
  match fuel with
  | 0 => .error .fuel
  | n + 1 => do
    let (bd, s) ←
      if readDesc then do
        let (bs, s) ← readb 1 s0
        pure (bs.headD 0, s)
      else pure (bd0, s0)
    if isNilIntfSlot ty v then do
      let (r, s) ← nilIntfDecode dam bd containerLen false true (.vIntf none) s
      if r.handled then
        pure ({ wasNilIntf := true, slot := r.slot, rvTy := .intf, rvVal := r.slot }, s)
      else
        match r.inner with
        | some (it, iv) => do
          let (v', s) ← decodeBody dam n r.bd r.containerLen it iv s
          pure ({ wasNilIntf := true, slot := .vIntf (some (it, v')),
                  rvTy := it, rvVal := v' }, s)
        | none => do
          let (v', s) ← decodeBody dam n r.bd r.containerLen .intf r.slot s
          pure ({ wasNilIntf := true, slot := v', rvTy := .intf, rvVal := v' }, s)
    else do
      let (v', s) ← decodeBody dam n bd containerLen ty v s
      pure ({ wasNilIntf := false, slot := v', rvTy := ty, rvVal := v' }, s)
termination_by structural fuel

/-- The body of decodeValue after the nil-interface protocol: the 0xc0 zero
reset followed by the switch over the destination kind (decode.go lines
368-588). -/
def decodeBody (dam : Resolver) (fuel : Nat) (bd : Nat) (containerLen : Int)
    (ty : GoType) (v : GoVal) (s : List Nat) : Except Fault (GoVal × List Nat) :=
  match fuel with
  | 0 => .error .fuel
  | n + 1 =>
    if bd = 0xc0 then .ok (zeroVal ty, s)
    else
      match ty, v with
      | .ptr elemTy, pv => do
        let ev :=
          match pv with
          | .vPtr (some e) => e
          | _ => zeroVal elemTy
        let (r, s) ← decodeValue dam n bd containerLen false elemTy ev s
        pure (.vPtr (some r.slot), s)
      | .intf, iv =>
        match iv with
        | .vIntf (some (dt, dv)) => do
          let (r, s) ← decodeValue dam n bd containerLen false dt dv s
          pure (.vIntf (some (dt, r.slot)), s)
        | _ => .error .reflectPanic
      | .bool, _ => decodeScalar bd ty s
      | .int w, _ => decodeScalar bd (.int w) s
      | .uint w, _ => decodeScalar bd (.uint w) s
      | .float32, _ => decodeScalar bd ty s
      | .float64, _ => decodeScalar bd ty s
      | .string, sv => do
        let (cl, s) ←
          if containerLen < 0 then readContainerLen bd false .containerRawBytes s
          else pure (containerLen, s)
        if cl = 0 then pure (sv, s)
        else do
          let (bytes, s) ← readb cl.toNat s
          pure (.vString bytes, s)
      | .bytes, bv => do
        let (cl, s) ←
          if containerLen < 0 then readContainerLen bd false .containerRawBytes s
          else pure (containerLen, s)
        if cl = 0 then pure (bv, s)
        else do
          let orig :=
            match bv with
            | .vBytes _ bs => bs
            | _ => []
          if orig.length < cl.toNat then do
            let (bytes, s) ← readb cl.toNat s
            pure (.vBytes false bytes, s)
          else if orig.length > cl.toNat then do
            let (bytes, s) ← readb cl.toNat s
            pure (.vBytes false (bytes ++ orig.drop cl.toNat), s)
          else do
            let (bytes, s) ← readb cl.toNat s
            pure (.vBytes false bytes, s)
      | .slice elemTy, sv => do
        let (cl0, s) ←
          if containerLen < 0 then readContainerLen bd false .containerList s
          else pure (containerLen, s)
        if cl0 = 0 then pure (sv, s)
        else do
          let cl := cl0.toNat
          let (isNil, store, len) :=
            match sv with
            | .vSlice a st l => (a, st, l)
            | _ => (true, [], 0)
          let (store, len) :=
            if isNil then (zeroRep cl elemTy, cl)
            else if cl > len then
              if cl > store.length then (store.take len ++ zeroRep (cl - len) elemTy, cl)
              else (store, cl)
            else (store, len)
          let (store, s) ←
            listLoop (fun j st s => decodeListStep dam n (.slice elemTy) elemTy len j st s)
              store 0 cl s
          pure (.vSlice false store len, s)
      | .array cap elemTy, av => do
        let (cl0, s) ←
          if containerLen < 0 then readContainerLen bd false .containerList s
          else pure (containerLen, s)
        if cl0 = 0 then pure (av, s)
        else do
          let cl := cl0.toNat
          let xs :=
            match av with
            | .vArr xs => xs
            | _ => zeroRep cap elemTy
          let rvlen := xs.length
          if rvlen < cl then .error .type
          else do
            let xs := if rvlen > cl then zeroFromIdx xs cl elemTy else xs
            let (xs, s) ←
              listLoop (fun j st s => decodeListStep dam n (.array cap elemTy) elemTy rvlen j st s)
                xs 0 cl s
            pure (.vArr xs, s)
      | .time, _ => do
        let (r, s) ← decodeValue dam n bd (-1) false (.array 2 (.int 64))
          (.vArr [.vInt 64 0, .vInt 64 0]) s
        match r.slot with
        | .vArr [.vInt _ a, .vInt _ b] => pure (.vTime a b, s)
        | _ => .error .reflectPanic
      | .struct ftys, stv => do
        let (cl0, s) ←
          if containerLen < 0 then readContainerLen bd false .containerMap s
          else pure (containerLen, s)
        if cl0 = 0 then pure (stv, s)
        else do
          let fvals :=
            match stv with
            | .vStruct fs => fs
            | _ => zeroFields ftys
          let (fvals, s) ←
            structLoop (fun fv s => decodeStructStep dam n ftys fv s) fvals cl0.toNat s
          pure (.vStruct fvals, s)
      | .map kt vt, mv => do
        let (cl0, s) ←
          if containerLen < 0 then readContainerLen bd false .containerMap s
          else pure (containerLen, s)
        if cl0 = 0 then pure (mv, s)
        else do
          let entries :=
            match mv with
            | .vMap false es => es
            | _ => []
          let (entries, s) ←
            pairLoop (fun es s => decodeMapStep dam n kt vt es s) entries cl0.toNat s
          pure (.vMap false entries, s)
termination_by structural fuel

/-- Decoder.decodeValueT: run decodeValue, then (under the flag conditions of
the source) dereference a pointer result, store the real value back into the
destination slot, and return it. -/
def decodeValueT (dam : Resolver) (fuel : Nat) (bd : Nat) (containerLen : Int)
    (readDesc : Bool) (rveTy : GoType) (rveVal : GoVal)
    (checkWasNilIntf : Bool) (dereferencePtr : Bool) (setToRealValue : Bool)
    (s : List Nat) : Except Fault (DVTRes × List Nat) :=
  match fuel with
  | 0 => .error .fuel
  | n + 1 => do
    let (r, s) ← decodeValue dam n bd containerLen readDesc rveTy rveVal s
    if (checkWasNilIntf && r.wasNilIntf) || !checkWasNilIntf then do
      let (rvTy, rvVal) ←
        if dereferencePtr then
          match r.rvTy, r.rvVal with
          | .ptr e, .vPtr (some x) => pure (e, x)
          | .ptr _, _ => .error .reflectPanic
          | t, x => pure (t, x)
        else pure (r.rvTy, r.rvVal)
      let rve' := if setToRealValue then assignTo rveTy rvTy rvVal else r.slot
      pure ({ rvnTy := rvTy, rvnVal := rvVal, rveVal := rve' }, s)
    else
      pure ({ rvnTy := rveTy, rvnVal := r.slot, rveVal := r.slot }, s)
termination_by structural fuel

/-- One element decode of the sequence branch (decode.go lines 506-521):
run the nil-interface protocol and the container resolver (with the sequence
as parent context and the element index as parent key) for an unset open
element, or decode into the existing element value. -/
def decodeListStep (dam : Resolver) (fuel : Nat) (parentTy elemTy : GoType)
    (plen : Nat) (j : Nat) (store : List GoVal) (s : List Nat) :
    Except Fault (GoVal × List Nat) :=
  match fuel with
  | 0 => .error .fuel
  | n + 1 => do
    let rvj := store.getD j (zeroVal elemTy)
    match elemTy, rvj with
    | .intf, .vIntf none => do
      let (r, s) ← nilIntfDecode dam 0 (-1) true false (.vIntf none) s
      if r.handled then pure (r.slot, s)
      else
        match dam (some (parentTy, mkParentVal parentTy store plen)) (.idx j)
            r.containerLen r.ct with
        | some (t2, v2) => do
          let (res, s) ← decodeValueT dam n r.bd r.containerLen false t2 v2
            false true false s
          pure (assignTo .intf res.rvnTy res.rvnVal, s)
        | none => do
          let (res, s) ← decodeValueT dam n r.bd r.containerLen false .intf r.slot
            true true true s
          pure (res.rveVal, s)
    | _, _ => do
      let (res, s) ← decodeValueT dam n 0 (-1) true elemTy rvj true true true s
      pure (res.rveVal, s)
termination_by structural fuel

/-- One pair decode of the struct branch (decode.go lines 538-547): decode a
string key, resolve it to a field index via the field mapper (field fault
when unresolved), and decode into the field's existing value. -/
def decodeStructStep (dam : Resolver) (fuel : Nat) (ftys : List (List Nat × GoType))
    (fvals : List GoVal) (s : List Nat) : Except Fault ((Nat × GoVal) × List Nat) :=
  match fuel with
  | 0 => .error .fuel
  | n + 1 => do
    let (r, s) ← decodeValue dam n 0 (-1) true .string (.vString []) s
    let name :=
      match r.slot with
      | .vString bs => bs
      | _ => []
    match fieldIndex ftys name with
    | none => .error .field
    | some i => do
      let fty := ((ftys.get? i).map Prod.snd).getD .intf
      let fval := fvals.getD i (zeroVal fty)
      let (res, s) ← decodeValueT dam n 0 (-1) true fty fval true true true s
      pure ((i, res.rveVal), s)
termination_by structural fuel

/-- The key decode of one map pair (decode.go lines 563-568): a fresh zero
key of the map's key kind is decoded; when the key kind is open and the
decoded key is a raw byte sequence, it is coerced to a string. -/
def decodeMapKey (dam : Resolver) (fuel : Nat) (kt : GoType) (s : List Nat) :
    Except Fault ((GoType × GoVal) × List Nat) :=
  match fuel with
  | 0 => .error .fuel
  | n + 1 => do
    let (res, s) ← decodeValueT dam n 0 (-1) true kt (zeroVal kt) true true false s
    match kt, res.rvnTy, res.rvnVal with
    | .intf, .bytes, .vBytes _ bs => pure ((.string, .vString bs), s)
    | _, _, _ => pure ((res.rvnTy, res.rvnVal), s)
termination_by structural fuel

/-- One pair decode of the map branch (decode.go lines 562-586): decode a
key (coercing open byte-sequence keys to strings), locate the existing entry
or a fresh zero value, decode the value (running the resolver with the map as
parent and the key as parent key for unset open values), and return the pair
to write back. -/
def decodeMapStep (dam : Resolver) (fuel : Nat) (kt vt : GoType)
    (entries : List (GoVal × GoVal)) (s : List Nat) :
    Except Fault ((GoVal × GoVal) × List Nat) :=
  match fuel with
  | 0 => .error .fuel
  | n + 1 => do
    let ((kTy, kVal), s) ← decodeMapKey dam n kt s
    let mapKey := assignTo kt kTy kVal
    let rvv0 := (lookupEntry entries mapKey).getD (zeroVal vt)
    let (value, s) ←
      match vt, rvv0 with
      | .intf, .vIntf none => do
        let (r, s) ← nilIntfDecode dam 0 (-1) true false (.vIntf none) s
        if r.handled then pure (r.slot, s)
        else
          match dam (some (.map kt vt, .vMap false entries)) (.key mapKey)
              r.containerLen r.ct with
          | some (t2, v2) => do
            let (res, s) ← decodeValueT dam n r.bd r.containerLen false t2 v2
              false true false s
            pure (assignTo .intf res.rvnTy res.rvnVal, s)
          | none => do
            let (res, s) ← decodeValueT dam n r.bd r.containerLen false .intf r.slot
              true true false s
            pure (res.rveVal, s)
      | _, _ => do
        let (res, s) ← decodeValueT dam n 0 (-1) true vt rvv0 true true false s
        pure (res.rvnVal, s)
    pure ((mapKey, value), s)
termination_by structural fuel

end


/-- Decoder.DecodeValue, the public boundary: the destination must be a
non-nil pointer (usage fault otherwise, before any bytes are consumed);
panics of the unexported decode functions become the returned error
(panicToErr).  Returns the final contents of the pointee. -/
def DecodeValue (dam : Resolver) (fuel : Nat) (argTy : GoType) (argVal : GoVal)
    (s : List Nat) : Except Fault (GoVal × List Nat) :=
  match argTy, argVal with
  | .ptr e, .vPtr (some pv) => do
    let (res, s) ← decodeValueT dam fuel 0 (-1) true e pv true true true s
    pure (res.rveVal, s)
  | _, _ => .error .usage

/-- One call to the underlying io.Reader: it either delivers some bytes
(truncated to the requested count) or fails; an exhausted source fails. -/
inductive ReadStep where
  | chunk (bs : List Nat)
  | ioerr
deriving DecidableEq, Repr

/-- A single Read call against a stepwise source. -/
def read1 (req : Nat) (src : List ReadStep) : Except Fault (List Nat × List ReadStep) :=
  match src with
  | [] => .error .read
  | .ioerr :: _ => .error .read
  | .chunk bs :: rest => .ok (bs.take req, rest)

/-- Decoder.readb over a stepwise source (decode.go lines 594-609): one read;
if it is short, exactly one retry read for the remainder; an I/O error from
either read, or a second short read, is a read fault. -/
def readbRetry (numbytes : Nat) (src : List ReadStep) :
    Except Fault (List Nat × List ReadStep) := do
  let (got, src1) ← read1 numbytes src
  if got.length = numbytes then .ok (got, src1)
  else do
    let (got2, src2) ← read1 (numbytes - got.length) src1
    if got2.length = numbytes - got.length then .ok (got ++ got2, src2)
    else .error .read

/-- The container length codec written from the spec's words (section 4.2):
if the tag byte equals the 16-bit tag the length is the next 2 bytes read
big-endian; else if it equals the 32-bit tag the length is the next 4 bytes
read big-endian; else if tag byte AND inline mask equals the inline mask the
length is tag byte XOR inline mask with no bytes consumed; otherwise a format
fault. -/
def readContainerLenSpec (bd : Nat) (ct : ContainerType) (s : List Nat) :
    Except Fault (Int × List Nat) :=
  let (b0, b1, b2) := getContainerByteDesc ct
  if bd = b1 then
    match s with
    | a :: b :: rest => .ok (((a * 256 + b : Nat) : Int), rest)
    | _ => .error .read
  else if bd = b2 then
    match s with
    | a :: b :: c :: d :: rest =>
      .ok (((((a * 256 + b) * 256 + c) * 256 + d : Nat) : Int), rest)
    | _ => .error .read
  else if bd &&& b0 = b0 then .ok (((bd ^^^ b0 : Nat) : Int), s)
  else .error .format

theorem readUint16_eq (s : List Nat) :
    readUint16 s = match s with
      | a :: b :: rest => .ok ((a * 256 + b, rest) : Nat × List Nat)
      | _ => .error .read := by
  match s with
  | [] => rfl
  | [a] => rfl
  | a :: b :: rest =>
    simp only [readUint16, readb, beNat, List.length_cons, List.take, List.drop]
    norm_num [List.foldl]

theorem readUint32_eq (s : List Nat) :
    readUint32 s = match s with
      | a :: b :: c :: d :: rest =>
        .ok (((((a * 256 + b) * 256 + c) * 256 + d, rest)) : Nat × List Nat)
      | _ => .error .read := by
  match s with
  | [] => rfl
  | [a] => rfl
  | [a, b] => rfl
  | [a, b, c] => rfl
  | a :: b :: c :: d :: rest =>
    simp only [readUint32, readb, beNat, List.length_cons, List.take, List.drop]
    norm_num [List.foldl]

theorem readContainerLen_false (bd : Nat) (ct : ContainerType) (s : List Nat) :
    readContainerLen bd false ct s =
      (let (b0, b1, b2) := getContainerByteDesc ct
       if bd = b1 then
         match readUint16 s with
         | .error e => .error e
         | .ok v => .ok ((v.1 : Int), v.2)
       else if bd = b2 then
         match readUint32 s with
         | .error e => .error e
         | .ok v => .ok ((v.1 : Int), v.2)
       else if b0 &&& bd = b0 then .ok (((b0 ^^^ bd : Nat) : Int), s)
       else .error .format) := by
  cases ct <;>
    · unfold readContainerLen
      simp only [getContainerByteDesc, Bool.false_eq_true, if_false, bind, Except.bind,
        pure, Except.pure]
      split_ifs <;>
        first
        | rfl
        | (rcases readUint16 s with e | v <;> rfl)
        | (rcases readUint32 s with e | v <;> rfl)

/-- C4: Decoder.readContainerLen computes the length by checks in the
spec's order: the 16-bit tag first (length = next 2 bytes big-endian), then
the 32-bit tag (length = next 4 bytes big-endian), then the inline-mask test
(length = tag byte XOR inline mask, no further bytes consumed), and a format
fault for every other tag byte. -/
theorem c4_readContainerLen_order (bd : Nat) (ct : ContainerType) (s : List Nat) :
    readContainerLen bd false ct s = readContainerLenSpec bd ct s := by
  rw [readContainerLen_false]
  cases ct
  case containerRawBytes =>
    simp only [readContainerLenSpec, getContainerByteDesc]
    rw [Nat.land_comm bd 0xa0, Nat.xor_comm bd 0xa0, readUint16_eq, readUint32_eq]
    split_ifs <;>
      first
      | rfl
      | (rcases s with _ | ⟨a, _ | ⟨b, _ | ⟨c, _ | ⟨d, rest⟩⟩⟩⟩ <;> rfl)
  case containerList =>
    simp only [readContainerLenSpec, getContainerByteDesc]
    rw [Nat.land_comm bd 0x90, Nat.xor_comm bd 0x90, readUint16_eq, readUint32_eq]
    split_ifs <;>
      first
      | rfl
      | (rcases s with _ | ⟨a, _ | ⟨b, _ | ⟨c, _ | ⟨d, rest⟩⟩⟩⟩ <;> rfl)
  case containerMap =>
    simp only [readContainerLenSpec, getContainerByteDesc]
    rw [Nat.land_comm bd 0x80, Nat.xor_comm bd 0x80, readUint16_eq, readUint32_eq]
    split_ifs <;>
      first
      | rfl
      | (rcases s with _ | ⟨a, _ | ⟨b, _ | ⟨c, _ | ⟨d, rest⟩⟩⟩⟩ <;> rfl)

/-- C1: the reserved descriptor byte 0xc1 is NOT a fault for every container
category.  For the Map category the inline-mask test of readContainerLen
accepts it (0x80 AND 0xc1 = 0x80) and computes the inline length
0x80 XOR 0xc1 = 65, so 0xc1 decoded into a map or record destination is
treated as a 65-pair fixmap: the decode proceeds to read pairs and (on an
exhausted stream) fails with a read fault, not a format fault.  The raw-bytes
and sequence categories do fault, as does the nil-interface protocol. -/
theorem c1_reserved_0xc1_is_fixmap65_for_map :
    (∀ s : List Nat, readContainerLen 0xc1 false .containerMap s = .ok (65, s))
    ∧ (∀ s : List Nat, readContainerLen 0xc1 false .containerRawBytes s = .error .format)
    ∧ (∀ s : List Nat, readContainerLen 0xc1 false .containerList s = .error .format)
    ∧ DecodeValue defaultResolver 20 (.ptr (.map .string (.int 64)))
        (.vPtr (some (.vMap true []))) [0xc1] = .error .read
    ∧ DecodeValue defaultResolver 20 (.ptr (.struct [([97], .int 64)]))
        (.vPtr (some (.vStruct [.vInt 64 0]))) [0xc1] = .error .read
    ∧ DecodeValue defaultResolver 20 (.ptr .intf) (.vPtr (some (.vIntf none)))
        [0xc1] = .error .format := by
  refine ⟨fun s => ?_, fun s => ?_, fun s => ?_, ?_, ?_, ?_⟩ <;> rfl

theorem readbRetry_chunk_full (n : Nat) (bs : List Nat) (rest : List ReadStep)
    (h : (bs.take n).length = n) :
    readbRetry n (.chunk bs :: rest) = .ok (bs.take n, rest) := by
  simp [readbRetry, read1, bind, Except.bind, h]

theorem readbRetry_chunk_nil (n : Nat) (bs : List Nat)
    (h : ¬(bs.take n).length = n) :
    readbRetry n [.chunk bs] = .error .read := by
  simp only [readbRetry, read1, bind, Except.bind, h, if_false, if_neg]

theorem readbRetry_chunk_ioerr (n : Nat) (bs : List Nat) (rest : List ReadStep)
    (h : ¬(bs.take n).length = n) :
    readbRetry n (.chunk bs :: .ioerr :: rest) = .error .read := by
  simp only [readbRetry, read1, bind, Except.bind, h, if_false, if_neg]

theorem readbRetry_chunk_chunk (n : Nat) (bs bs2 : List Nat) (rest2 : List ReadStep)
    (h : ¬(bs.take n).length = n) :
    readbRetry n (.chunk bs :: .chunk bs2 :: rest2) =
      if (bs2.take (n - (bs.take n).length)).length = n - (bs.take n).length
      then .ok (bs.take n ++ bs2.take (n - (bs.take n).length), rest2)
      else .error .read := by
  simp only [readbRetry, read1, bind, Except.bind, h, if_false, if_neg]

/-- C9: Decoder.readb over a stepwise source reads exactly n bytes with at
most one retry: on success the result has exactly n bytes and the source
advanced by one read (full first read, no retry) or by exactly two reads (one
retry); every failure is a read fault; and a first read that already delivers
n bytes issues no retry. -/
theorem c9_readb_exactly_one_retry (n : Nat) (src : List ReadStep) :
    (∀ bs src', readbRetry n src = .ok (bs, src') →
      bs.length = n ∧ (src' = src.drop 1 ∨ src' = src.drop 2))
    ∧ (∀ f, readbRetry n src = .error f → f = .read)
    ∧ (∀ bs rest, src = .chunk bs :: rest → n ≤ bs.length →
        readbRetry n src = .ok (bs.take n, rest)) := by
  have hnil : readbRetry n [] = .error .read := rfl
  have hioerr : ∀ rest, readbRetry n (.ioerr :: rest) = .error .read := fun _ => rfl
  refine ⟨?_, ?_, ?_⟩
  · intro bs0 src' h
    rcases src with _ | ⟨step, rest⟩
    · rw [hnil] at h; exact absurd h (by simp)
    · rcases step with bs1 | _
      · by_cases h1 : (bs1.take n).length = n
        · rw [readbRetry_chunk_full n bs1 rest h1] at h
          rcases h with ⟨⟩
          exact ⟨h1, Or.inl rfl⟩
        · rcases rest with _ | ⟨step2, rest2⟩
          · rw [readbRetry_chunk_nil n bs1 h1] at h; exact absurd h (by simp)
          · rcases step2 with bs2 | _
            · rw [readbRetry_chunk_chunk n bs1 bs2 rest2 h1] at h
              by_cases h2 : (bs2.take (n - (bs1.take n).length)).length
                  = n - (bs1.take n).length
              · rw [if_pos h2] at h
                rcases h with ⟨⟩
                refine ⟨?_, Or.inr rfl⟩
                have hle : (bs1.take n).length ≤ n := by
                  simp [List.length_take]
                simp only [List.length_append, h2]
                omega
              · rw [if_neg h2] at h; exact absurd h (by simp)
            · rw [readbRetry_chunk_ioerr n bs1 rest2 h1] at h; exact absurd h (by simp)
      · rw [hioerr rest] at h; exact absurd h (by simp)
  · intro f h
    rcases src with _ | ⟨step, rest⟩
    · rw [hnil] at h
      exact (Except.error.inj h).symm
    · rcases step with bs1 | _
      · by_cases h1 : (bs1.take n).length = n
        · rw [readbRetry_chunk_full n bs1 rest h1] at h; exact absurd h (by simp)
        · rcases rest with _ | ⟨step2, rest2⟩
          · rw [readbRetry_chunk_nil n bs1 h1] at h
            exact (Except.error.inj h).symm
          · rcases step2 with bs2 | _
            · rw [readbRetry_chunk_chunk n bs1 bs2 rest2 h1] at h
              by_cases h2 : (bs2.take (n - (bs1.take n).length)).length
                  = n - (bs1.take n).length
              · rw [if_pos h2] at h; exact absurd h (by simp)
              · rw [if_neg h2] at h
                exact (Except.error.inj h).symm
            · rw [readbRetry_chunk_ioerr n bs1 rest2 h1] at h
              exact (Except.error.inj h).symm
      · rw [hioerr rest] at h
        exact (Except.error.inj h).symm
  · intro bs rest hsrc hn
    subst hsrc
    have h1 : (bs.take n).length = n := by simp [List.length_take, hn]
    exact readbRetry_chunk_full n bs rest h1

/-- Closed witness for the one-retry readb theorem: a full first read
consumes one step with no retry; a short first read followed by a completing
second read consumes exactly two steps; a short second read is a read
fault. -/
theorem c9_readb_exactly_one_retry_witness :
    readbRetry 2 [.chunk [7, 8, 9], .ioerr] = .ok ([7, 8], [.ioerr])
    ∧ readbRetry 3 [.chunk [7], .chunk [8, 9]] = .ok ([7, 8, 9], [])
    ∧ readbRetry 4 [.chunk [7], .chunk [8]] = .error .read
    ∧ ([7, 8] : List Nat).length = 2
    ∧ ([.ioerr] : List ReadStep) = [ReadStep.chunk [7, 8, 9], .ioerr].drop 1 := by
  refine ⟨?_, rfl, rfl, rfl, rfl⟩
  exact (c9_readb_exactly_one_retry 2 [.chunk [7, 8, 9], .ioerr]).2.2 [7, 8, 9] [.ioerr] rfl (by decide)

theorem readb_one (b : Nat) (s : List Nat) : readb 1 (b :: s) = .ok ([b], s) := by
  simp [readb, Nat.succ_le_succ]

theorem decodeValue_readDesc (dam : Resolver) (n : Nat) (bd0 : Nat) (cl : Int)
    (ty : GoType) (v : GoVal) (b : Nat) (s : List Nat) :
    decodeValue dam (n + 1) bd0 cl true ty v (b :: s) =
      decodeValue dam (n + 1) b cl false ty v s := by
  simp [decodeValue, readb_one, bind, Except.bind]

theorem decodeValue_not_nil (dam : Resolver) (n : Nat) (bd : Nat) (cl : Int)
    (ty : GoType) (v : GoVal) (s : List Nat) (h : isNilIntfSlot ty v = false) :
    decodeValue dam (n + 1) bd cl false ty v s =
      (match decodeBody dam n bd cl ty v s with
       | .error e => .error e
       | .ok vs =>
         .ok ({ wasNilIntf := false, slot := vs.1, rvTy := ty, rvVal := vs.1 }, vs.2)) := by
  rcases hb : decodeBody dam n bd cl ty v s with e | vs <;>
    simp [decodeValue, h, hb, bind, Except.bind, pure, Except.pure]

/-- C8: decoding a 0xc0 tag consumes only the tag byte.  A destination that
is not an unset open interface is reset to its type's zero value; an unset
open interface stays an explicit nil.  Both conclusions hold for every
resolver, so the resolver is never consulted and no container is
materialized. -/
theorem c8_tag_c0_zero_value_and_explicit_nil (dam : Resolver) (fuel : Nat)
    (cl : Int) (ty : GoType) (v : GoVal) (s : List Nat) :
    (isNilIntfSlot ty v = false →
      decodeValue dam (fuel + 2) 0 cl true ty v (0xc0 :: s) =
        .ok ({ wasNilIntf := false, slot := zeroVal ty, rvTy := ty,
               rvVal := zeroVal ty }, s))
    ∧ decodeValue dam (fuel + 1) 0 cl true .intf (.vIntf none) (0xc0 :: s) =
        .ok ({ wasNilIntf := true, slot := .vIntf none, rvTy := .intf,
               rvVal := .vIntf none }, s) := by
  constructor
  · intro h
    rw [decodeValue_readDesc, decodeValue_not_nil dam (fuel + 1) 0xc0 cl ty v s h]
    simp [decodeBody]
  · rw [decodeValue_readDesc]
    rfl

/-- Closed witness for the 0xc0 theorem: an int64 destination holding 42 is
reset to 0, and a nil interface destination stays nil. -/
theorem c8_tag_c0_witness :
    isNilIntfSlot (.int 64) (.vInt 64 42) = false
    ∧ decodeValue defaultResolver 2 0 (-1) true (.int 64) (.vInt 64 42) [0xc0] =
        .ok ({ wasNilIntf := false, slot := zeroVal (.int 64), rvTy := .int 64,
               rvVal := zeroVal (.int 64) }, [])
    ∧ decodeValue defaultResolver 1 0 (-1) true .intf (.vIntf none) [0xc0] =
        .ok ({ wasNilIntf := true, slot := .vIntf none, rvTy := .intf,
               rvVal := .vIntf none }, []) := by
  refine ⟨rfl, ?_, ?_⟩
  · exact (c8_tag_c0_zero_value_and_explicit_nil defaultResolver 0 (-1)
      (.int 64) (.vInt 64 42) []).1 rfl
  · exact (c8_tag_c0_zero_value_and_explicit_nil defaultResolver 0 (-1)
      (.int 64) (.vInt 64 42) []).2

/-- C5: with no dedicated scalar-tag arm matching (tag not 0xc0/0xc2/0xc3
and outside 0xca-0xcf and 0xd0-0xd3), a signed integer destination accepts a
fixnum tag in 0x00-0x7f or 0xe0-0xff and stores it reinterpreted as a signed
8-bit value; an unsigned integer destination accepts only 0x00-0x7f and
stores the value directly (0xe0-0xff is a format fault); every other tag is a
format fault, as is any such tag into a destination with no fixnum fallback
(bool).  For the Go widths (8 or more bits) the stored value is exactly the
signed 8-bit reinterpretation (range -32..127 on fixnum tags). -/
theorem c5_fixnum_fallback_signedness (dam : Resolver) (fuel : Nat) (cl : Int)
    (w : Nat) (bd : Nat) (v v' v'' : GoVal) (s : List Nat)
    (hbd : bd ≤ 0xff) (hw : 8 ≤ w)
    (h0 : bd ≠ 0xc0) (h2 : bd ≠ 0xc2) (h3 : bd ≠ 0xc3)
    (hca : ¬(0xca ≤ bd ∧ bd ≤ 0xcf)) (hd0 : ¬(0xd0 ≤ bd ∧ bd ≤ 0xd3)) :
    (decodeValue dam (fuel + 2) bd cl false (.int w) v s =
      if bd ≤ 0x7f ∨ (0xe0 ≤ bd ∧ bd ≤ 0xff) then
        .ok ({ wasNilIntf := false, slot := .vInt w (wrapSigned w (sInt8 bd)),
               rvTy := .int w, rvVal := .vInt w (wrapSigned w (sInt8 bd)) }, s)
      else .error .format)
    ∧ (decodeValue dam (fuel + 2) bd cl false (.uint w) v' s =
      if bd ≤ 0x7f then
        .ok ({ wasNilIntf := false, slot := .vUint w (wrapUnsigned w bd),
               rvTy := .uint w, rvVal := .vUint w (wrapUnsigned w bd) }, s)
      else .error .format)
    ∧ decodeValue dam (fuel + 2) bd cl false .bool v'' s = .error .format
    ∧ wrapSigned w (sInt8 bd) = sInt8 bd
    ∧ (bd ≤ 0x7f → wrapUnsigned w bd = bd) := by
  have hc4 : bd ≠ 0xca := by intro he; exact hca (by omega)
  have hc5 : bd ≠ 0xcb := by intro he; exact hca (by omega)
  have hc6 : bd ≠ 0xcc := by intro he; exact hca (by omega)
  have hc7 : bd ≠ 0xcd := by intro he; exact hca (by omega)
  have hc8 : bd ≠ 0xce := by intro he; exact hca (by omega)
  have hc9 : bd ≠ 0xcf := by intro he; exact hca (by omega)
  have hda : bd ≠ 0xd0 := by intro he; exact hd0 (by omega)
  have hdb : bd ≠ 0xd1 := by intro he; exact hd0 (by omega)
  have hdc : bd ≠ 0xd2 := by intro he; exact hd0 (by omega)
  have hdd : bd ≠ 0xd3 := by intro he; exact hd0 (by omega)
  have hint : ∀ u : GoVal, isNilIntfSlot (.int w) u = false := fun u => by cases u <;> rfl
  have huint : ∀ u : GoVal, isNilIntfSlot (.uint w) u = false := fun u => by cases u <;> rfl
  have hbool : ∀ u : GoVal, isNilIntfSlot .bool u = false := fun u => by cases u <;> rfl
  refine ⟨?_, ?_, ?_, ?_, ?_⟩
  · rw [decodeValue_not_nil dam (fuel + 1) bd cl (.int w) v s (hint v)]
    have hb : decodeBody dam (fuel + 1) bd cl (.int w) v s = decodeScalar bd (.int w) s := by
      simp [decodeBody, h0]
    rw [hb]
    simp only [decodeScalar, h2, h3, hc4, hc5, hc6, hc7, hc8, hc9, hda, hdb, hdc, hdd,
      if_neg, if_false, ite_false]
    by_cases hr : bd ≤ 0x7f ∨ (0xe0 ≤ bd ∧ bd ≤ 0xff)
    · rw [if_pos hr, if_pos hr]
      simp [setIntV, bind, Except.bind, pure, Except.pure]
    · rw [if_neg hr, if_neg hr]
  · rw [decodeValue_not_nil dam (fuel + 1) bd cl (.uint w) v' s (huint v')]
    have hb : decodeBody dam (fuel + 1) bd cl (.uint w) v' s = decodeScalar bd (.uint w) s := by
      simp [decodeBody, h0]
    rw [hb]
    simp only [decodeScalar, h2, h3, hc4, hc5, hc6, hc7, hc8, hc9, hda, hdb, hdc, hdd,
      if_neg, if_false, ite_false]
    by_cases hr : bd ≤ 0x7f
    · rw [if_pos hr, if_pos hr]
      simp [setUintV, bind, Except.bind, pure, Except.pure]
    · rw [if_neg hr, if_neg hr]
  · rw [decodeValue_not_nil dam (fuel + 1) bd cl .bool v'' s (hbool v'')]
    have hb : decodeBody dam (fuel + 1) bd cl .bool v'' s = decodeScalar bd .bool s := by
      simp [decodeBody, h0]
    rw [hb]
    simp only [decodeScalar, h2, h3, hc4, hc5, hc6, hc7, hc8, hc9, hda, hdb, hdc, hdd,
      if_neg, if_false, ite_false]
  · have h128 : (128 : Int) ≤ 2 ^ (w - 1) := by
      calc (128 : Int) = 2 ^ 7 := by norm_num
      _ ≤ 2 ^ (w - 1) := by
        apply pow_le_pow_right₀ (by norm_num)
        omega
    have hx : -128 ≤ sInt8 bd ∧ sInt8 bd < 128 := by
      unfold sInt8
      split_ifs with hlt
      · constructor <;> omega
      · omega
    unfold wrapSigned
    have h2w : ((2 ^ w : Nat) : Int) = 2 ^ (w - 1) * 2 := by
      have hw1 : w - 1 + 1 = w := by omega
      push_cast
      conv_lhs => rw [← hw1]
      rw [pow_succ]
    rw [h2w]
    rw [Int.emod_eq_of_lt (by omega) (by omega)]
    omega
  · intro hr
    unfold wrapUnsigned
    apply Nat.mod_eq_of_lt
    have : 256 ≤ 2 ^ w := by
      calc (256 : Nat) = 2 ^ 8 := by norm_num
      _ ≤ 2 ^ w := Nat.pow_le_pow_right (by norm_num) hw
    omega

/-- C6: in the map-pair loop with an open/dynamic key kind, the key used
for insertion is the raw key decode coerced: a key that decoded to a raw
byte sequence becomes a string with the same bytes, and a key of any other
decoded type is used exactly as decoded.  (decodeMapKey is the key phase of
decodeMapPairs; the raw decode is its decodeValueT call.) -/
theorem c6_open_map_key_bytes_coerced (dam : Resolver) (fuel : Nat) (s s' : List Nat)
    (r : DVTRes)
    (h : decodeValueT dam fuel 0 (-1) true .intf (.vIntf none) true true false s =
      .ok (r, s')) :
    (∀ b bs, r.rvnTy = .bytes → r.rvnVal = .vBytes b bs →
      decodeMapKey dam (fuel + 1) .intf s = .ok ((.string, .vString bs), s'))
    ∧ (r.rvnTy ≠ .bytes →
      decodeMapKey dam (fuel + 1) .intf s = .ok ((r.rvnTy, r.rvnVal), s')) := by
  constructor
  · intro b bs ht hv
    simp only [decodeMapKey, zeroVal, bind, Except.bind, h, ht, hv, pure, Except.pure]
  · intro ht
    rcases r with ⟨rt, rv, re⟩
    simp only at ht
    cases rt <;>
      first
      | exact absurd rfl ht
      | simp only [decodeMapKey, zeroVal, bind, Except.bind, h, pure, Except.pure]

def noLiteralCfg : SimpleDecoderContainerResolver :=
  { MapType := none, SliceType := none, BytesStringLiteral := false,
    BytesStringSliceElement := true, BytesStringMapValue := true }

/-- Closed witness for the key-coercion theorem: with the default resolver's
BytesStringLiteral flag cleared the wire key 0xa1 0x61 decodes to raw bytes
and is coerced to the string "a"; the fixnum key 0x05 stays the decoded
int8 5. -/
theorem c6_open_map_key_bytes_coerced_witness :
    decodeMapKey (simpleResolve noLiteralCfg) 6 .intf [0xa1, 0x61] =
      .ok ((.string, .vString [0x61]), [])
    ∧ decodeMapKey defaultResolver 6 .intf [0x05] =
      .ok ((.intf, .vIntf (some (.int 8, .vInt 8 5))), []) := by
  constructor
  · exact (c6_open_map_key_bytes_coerced (simpleResolve noLiteralCfg) 5 [0xa1, 0x61] []
      ({ rvnTy := .bytes, rvnVal := .vBytes false [0x61],
         rveVal := .vIntf (some (.bytes, .vBytes false [0x61])) }) rfl).1 false [0x61] rfl rfl
  · exact (c6_open_map_key_bytes_coerced defaultResolver 5 [0x05] []
      ({ rvnTy := .intf, rvnVal := .vIntf (some (.int 8, .vInt 8 5)),
         rveVal := .vIntf (some (.int 8, .vInt 8 5)) }) rfl).2 (fun hx => nomatch hx)

theorem goVal_getD_set_ne (l : List GoVal) (jj i : Nat) (a d : GoVal) (h : jj ≠ i) :
    (l.set jj a).getD i d = l.getD i d := by
  simp [List.getD, List.getElem?_set_ne h]

theorem listLoop_length (step : Nat → List GoVal → List Nat → Except Fault (GoVal × List Nat)) :
    ∀ (count j : Nat) (store : List GoVal) (s : List Nat) (store' : List GoVal) (s' : List Nat),
      listLoop step store j count s = .ok (store', s') → store'.length = store.length := by
  intro count
  induction count with
  | zero =>
    intro j store s store' s' h
    simp only [listLoop, Except.ok.injEq, Prod.mk.injEq] at h
    rw [← h.1]
  | succ c ih =>
    intro j store s store' s' h
    simp only [listLoop, bind, Except.bind] at h
    split at h
    · exact absurd h (by simp)
    · exact (ih _ _ _ _ _ h).trans (List.length_set _ _ _)

theorem listLoop_untouched (step : Nat → List GoVal → List Nat → Except Fault (GoVal × List Nat)) :
    ∀ (count j : Nat) (store : List GoVal) (s : List Nat) (store' : List GoVal) (s' : List Nat),
      listLoop step store j count s = .ok (store', s') →
      ∀ (i : Nat) (d : GoVal), i < j ∨ j + count ≤ i → store'.getD i d = store.getD i d := by
  intro count
  induction count with
  | zero =>
    intro j store s store' s' h i d hi
    simp only [listLoop, Except.ok.injEq, Prod.mk.injEq] at h
    rw [← h.1]
  | succ c ih =>
    intro j store s store' s' h i d hi
    have hne : j ≠ i := by omega
    simp only [listLoop, bind, Except.bind] at h
    split at h
    · exact absurd h (by simp)
    · exact (ih _ _ _ _ _ h i d (by omega)).trans (goVal_getD_set_ne _ _ _ _ _ hne)


/-- Visible length of a slice value. -/
def sliceVisLen : GoVal → Nat
  | .vSlice _ _ l => l
  | _ => 0

/-- Capacity (backing store length) of a slice value. -/
def sliceCap : GoVal → Nat
  | .vSlice _ st _ => st.length
  | _ => 0

/-- C2 (amended): decoding a wire sequence of length L into a slice
destination never shrinks it: on success the visible length is
max(prior length, L).  The slice is grown to L when the prior length is
smaller, reusing the backing store when its capacity suffices and copying
into a fresh allocation of capacity L only when the capacity is below L (the
resulting capacity is the prior capacity when L fits, else exactly L); when
the prior length is at least L (including L = 0) both length and capacity are
left unchanged. -/
theorem c2_slice_never_shrunk_amended (dam : Resolver) (fuel : Nat) (bd : Nat) (eT : GoType) (b : Bool)
    (store : List GoVal) (len L : Nat) (s : List Nat) (r : DVRes) (s' : List Nat)
    (hbd : bd ≠ 0xc0)
    (hnil : b = true → store = [] ∧ len = 0)
    (hlen : len ≤ store.length)
    (h : decodeValue dam (fuel + 1) bd (L : Int) false (.slice eT) (.vSlice b store len) s
          = .ok (r, s')) :
    sliceVisLen r.slot = max len L ∧
    sliceCap r.slot = (if L ≤ store.length then store.length else L) := by
  rw [decodeValue_not_nil dam fuel bd (L : Int) (.slice eT) (.vSlice b store len) s rfl] at h
  rcases hb : decodeBody dam fuel bd (L : Int) (.slice eT) (.vSlice b store len) s with e | vs
  · rw [hb] at h; exact absurd h (by simp)
  · rw [hb] at h
    simp only [Except.ok.injEq, Prod.mk.injEq] at h
    have hr : r.slot = vs.1 := by rw [← h.1]
    rcases fuel with _ | m
    · exact absurd hb (by simp [decodeBody])
    · simp only [decodeBody, hbd, if_neg, if_false, bind, Except.bind, pure, Except.pure,
        Int.toNat_natCast, show ¬((L : Int) < 0) from by omega] at hb
      by_cases hL0 : L = 0
      · subst hL0
        simp only [Nat.cast_zero, if_pos, Except.ok.injEq] at hb
        rw [hr, ← hb]
        refine ⟨by simp [sliceVisLen], by simp [sliceCap, hlen]⟩
      · have hc0 : ¬((L : Int) = 0) := by omega
        rw [if_neg hc0] at hb
        rcases hB : b with _ | _
        · rw [hB] at hb
          simp only [Bool.false_eq_true, if_false] at hb
          by_cases h1 : L > len
          · rw [if_pos h1] at hb
            by_cases h2 : L > store.length
            · rw [if_pos h2] at hb
              try dsimp only at hb
              rcases hX : listLoop
                  (fun j st s => decodeListStep dam m (GoType.slice eT) eT L j st s)
                  (List.take len store ++ zeroRep (L - len) eT) 0 L s with e1 | p
              · rw [hX] at hb; exact absurd hb (by simp)
              · rw [hX] at hb
                simp only [Except.ok.injEq] at hb
                rcases p with ⟨st1, s1⟩
                rw [hr, ← hb]
                constructor
                · simp only [sliceVisLen]; omega
                · have hl := listLoop_length _ L 0 _ s st1 s1 hX
                  simp only [sliceCap, hl, List.length_append, List.length_take, zeroRep,
                    List.length_replicate]
                  rw [if_neg (by omega)]
                  omega
            · rw [if_neg h2] at hb
              try dsimp only at hb
              rcases hX : listLoop
                  (fun j st s => decodeListStep dam m (GoType.slice eT) eT L j st s)
                  store 0 L s with e1 | p
              · rw [hX] at hb; exact absurd hb (by simp)
              · rw [hX] at hb
                simp only [Except.ok.injEq] at hb
                rcases p with ⟨st1, s1⟩
                rw [hr, ← hb]
                constructor
                · simp only [sliceVisLen]; omega
                · have hl := listLoop_length _ L 0 _ s st1 s1 hX
                  simp only [sliceCap, hl]
                  rw [if_pos (by omega)]
          · rw [if_neg h1] at hb
            try dsimp only at hb
            rcases hX : listLoop
                (fun j st s => decodeListStep dam m (GoType.slice eT) eT len j st s)
                store 0 L s with e1 | p
            · rw [hX] at hb; exact absurd hb (by simp)
            · rw [hX] at hb
              simp only [Except.ok.injEq] at hb
              rcases p with ⟨st1, s1⟩
              rw [hr, ← hb]
              constructor
              · simp only [sliceVisLen]; omega
              · have hl := listLoop_length _ L 0 _ s st1 s1 hX
                simp only [sliceCap, hl]
                rw [if_pos (by omega)]
        · rw [hB] at hb
          rcases hnil hB with ⟨hst, hln⟩
          subst hst; subst hln
          simp only [if_pos] at hb
          try dsimp only at hb
          rcases hX : listLoop
              (fun j st s => decodeListStep dam m (GoType.slice eT) eT L j st s)
              (zeroRep L eT) 0 L s with e1 | p
          · rw [hX] at hb; exact absurd hb (by simp)
          · rw [hX] at hb
            simp only [Except.ok.injEq] at hb
            rcases p with ⟨st1, s1⟩
            rw [hr, ← hb]
            constructor
            · simp only [sliceVisLen]; omega
            · have hl := listLoop_length _ L 0 _ s st1 s1 hX
              simp only [sliceCap, hl, zeroRep, List.length_replicate, List.length_nil]
              rw [if_neg (by omega)]

theorem zeroFromIdx_getD (xs : List GoVal) (j i : Nat) (t : GoType) (d : GoVal)
    (hj : j ≤ i) (hi : i < xs.length) :
    (zeroFromIdx xs j t).getD i d = zeroVal t := by
  unfold zeroFromIdx zeroRep
  have hjl : j ≤ xs.length := by omega
  have h1 : (List.take j xs).length = j := by
    simp only [List.length_take]
    omega
  simp only [List.getD, List.get?_eq_getElem?]
  rw [List.getElem?_append_right (by omega : (List.take j xs).length ≤ i), h1,
    List.getElem?_replicate]
  rw [if_pos (by omega)]
  rfl

/-- C7 (amended): a fixed-array destination of capacity C decoding a wire
sequence of length L: when 1 <= L and C < L the decode is a type fault; when
L = 0 the decode is a no-op (no slot is zeroed, contrary to the claim's
universal zeroing); when 1 <= L <= C the decode succeeds only with an array
of the same capacity whose slots at indices L..C-1 all hold the element
type's zero value. -/
theorem c7_fixed_array_amended (dam : Resolver) (fuel : Nat) (bd : Nat) (cap : Nat) (eT : GoType)
    (xs : List GoVal) (L : Nat) (s : List Nat)
    (hbd : bd ≠ 0xc0) (hxs : xs.length = cap) :
    (1 ≤ L → cap < L →
      decodeValue dam (fuel + 2) bd (L : Int) false (.array cap eT) (.vArr xs) s =
        .error .type)
    ∧ (L = 0 →
      decodeValue dam (fuel + 2) bd (L : Int) false (.array cap eT) (.vArr xs) s =
        .ok ({ wasNilIntf := false, slot := .vArr xs, rvTy := .array cap eT,
               rvVal := .vArr xs }, s))
    ∧ (1 ≤ L → ∀ (r : DVRes) (s' : List Nat),
      decodeValue dam (fuel + 2) bd (L : Int) false (.array cap eT) (.vArr xs) s =
        .ok (r, s') →
      ∃ ys, r.slot = .vArr ys ∧ ys.length = cap ∧
        ∀ (i : Nat) (d : GoVal), L ≤ i → i < cap → ys.getD i d = zeroVal eT) := by
  refine ⟨?_, ?_, ?_⟩
  · intro hL1 hcap
    rw [decodeValue_not_nil dam (fuel + 1) bd (L : Int) (.array cap eT) (.vArr xs) s rfl]
    have hb : decodeBody dam (fuel + 1) bd (L : Int) (.array cap eT) (.vArr xs) s =
        .error .type := by
      simp only [decodeBody, hbd, if_neg, if_false, bind, Except.bind, pure, Except.pure,
        Int.toNat_natCast, show ¬((L : Int) < 0) from by omega,
        show ¬((L : Int) = 0) from by omega]
      rw [if_pos (by omega : xs.length < L)]
    rw [hb]
  · intro hL0
    subst hL0
    rw [decodeValue_not_nil dam (fuel + 1) bd ((0 : Nat) : Int) (.array cap eT) (.vArr xs) s rfl]
    have hb : decodeBody dam (fuel + 1) bd ((0 : Nat) : Int) (.array cap eT) (.vArr xs) s =
        .ok (.vArr xs, s) := by
      simp [decodeBody, hbd, bind, Except.bind, pure, Except.pure]
    rw [hb]
  · intro hL1 r s' h
    rw [decodeValue_not_nil dam (fuel + 1) bd (L : Int) (.array cap eT) (.vArr xs) s rfl] at h
    rcases hb : decodeBody dam (fuel + 1) bd (L : Int) (.array cap eT) (.vArr xs) s with e | vs
    · rw [hb] at h; exact absurd h (by simp)
    · rw [hb] at h
      simp only [Except.ok.injEq, Prod.mk.injEq] at h
      have hr : r.slot = vs.1 := by rw [← h.1]
      simp only [decodeBody, hbd, if_neg, if_false, bind, Except.bind, pure, Except.pure,
        Int.toNat_natCast, show ¬((L : Int) < 0) from by omega,
        show ¬((L : Int) = 0) from by omega] at hb
      by_cases hlt : xs.length < L
      · rw [if_pos hlt] at hb
        exact absurd hb (by simp)
      · rw [if_neg hlt] at hb
        by_cases hgt : xs.length > L
        · rw [if_pos hgt] at hb
          try dsimp only at hb
          rcases hX : listLoop
              (fun j st s => decodeListStep dam fuel (GoType.array cap eT) eT xs.length j st s)
              (zeroFromIdx xs L eT) 0 L s with e1 | p
          · rw [hX] at hb; exact absurd hb (by simp)
          · rw [hX] at hb
            simp only [Except.ok.injEq] at hb
            rcases p with ⟨ys, s1⟩
            refine ⟨ys, ?_, ?_, ?_⟩
            · rw [hr, ← hb]
            · have hl := listLoop_length _ L 0 _ s ys s1 hX
              rw [hl]
              unfold zeroFromIdx
              simp [List.length_take, zeroRep]
              omega
            · intro i d hiL hic
              have hu := listLoop_untouched _ L 0 _ s ys s1 hX i d (by omega)
              rw [hu]
              exact zeroFromIdx_getD xs L i eT d hiL (by omega)
        · rw [if_neg hgt] at hb
          have heq : xs.length = L := by omega
          try dsimp only at hb
          rcases hX : listLoop
              (fun j st s => decodeListStep dam fuel (GoType.array cap eT) eT xs.length j st s)
              xs 0 L s with e1 | p
          · rw [hX] at hb; exact absurd hb (by simp)
          · rw [hX] at hb
            simp only [Except.ok.injEq] at hb
            rcases p with ⟨ys, s1⟩
            refine ⟨ys, ?_, ?_, ?_⟩
            · rw [hr, ← hb]
            · have hl := listLoop_length _ L 0 _ s ys s1 hX
              rw [hl, hxs]
            · intro i d hiL hic
              omega

/-- C2 counterexample: the claim as stated is false.  Decoding the wire
sequence 0x91 0x05 (length L = 1) into a non-nil []int64 slice of prior
length 2 succeeds with visible length 2, not 1: the element 5 is written at
index 0 and the stale element 8 stays visible at index 1. -/
theorem c2_slice_length_counterexample :
    decodeValue defaultResolver 6 0 (-1) true (.slice (.int 64))
        (.vSlice false [.vInt 64 7, .vInt 64 8] 2) [0x91, 0x05] =
      .ok ({ wasNilIntf := false, slot := .vSlice false [.vInt 64 5, .vInt 64 8] 2,
             rvTy := .slice (.int 64), rvVal := .vSlice false [.vInt 64 5, .vInt 64 8] 2 }, [])
    ∧ sliceVisLen (.vSlice false [.vInt 64 5, .vInt 64 8] 2) ≠ 1 :=
  ⟨rfl, by decide⟩

/-- Closed witness for the amended slice theorem: growing a length-1 slice
of capacity 1 to wire length 2 reallocates to capacity 2 and decodes both
elements. -/
theorem c2_slice_never_shrunk_amended_witness :
    decodeValue defaultResolver 6 0x92 ((2 : Nat) : Int) false (.slice (.int 64))
        (.vSlice false [.vInt 64 7] 1) [0x01, 0x02] =
      .ok ({ wasNilIntf := false, slot := .vSlice false [.vInt 64 1, .vInt 64 2] 2,
             rvTy := .slice (.int 64), rvVal := .vSlice false [.vInt 64 1, .vInt 64 2] 2 }, [])
    ∧ sliceVisLen (GoVal.vSlice false [.vInt 64 1, .vInt 64 2] 2) = max 1 2
    ∧ sliceCap (GoVal.vSlice false [.vInt 64 1, .vInt 64 2] 2) =
        (if 2 ≤ ([GoVal.vInt 64 7]).length then ([GoVal.vInt 64 7]).length else 2) := by
  have heval : decodeValue defaultResolver 6 0x92 ((2 : Nat) : Int) false (.slice (.int 64))
      (.vSlice false [.vInt 64 7] 1) [0x01, 0x02] =
      .ok ({ wasNilIntf := false, slot := .vSlice false [.vInt 64 1, .vInt 64 2] 2,
             rvTy := .slice (.int 64), rvVal := .vSlice false [.vInt 64 1, .vInt 64 2] 2 }, []) := rfl
  have hk := c2_slice_never_shrunk_amended defaultResolver 5 0x92 (.int 64) false
    [.vInt 64 7] 1 2 [0x01, 0x02]
    ({ wasNilIntf := false, slot := .vSlice false [.vInt 64 1, .vInt 64 2] 2,
       rvTy := .slice (.int 64), rvVal := .vSlice false [.vInt 64 1, .vInt 64 2] 2 }) []
    (by decide) (fun hx => by simp at hx) (by decide) heval
  exact ⟨heval, hk.1, hk.2⟩

/-- C7 counterexample: the claim as stated is false at L = 0.  Decoding the
wire sequence 0x90 (length 0) into a capacity-1 int64 array holding 7 leaves
the array unchanged instead of zeroing every trailing slot. -/
theorem c7_fixed_array_counterexample :
    decodeValue defaultResolver 6 0 (-1) true (.array 1 (.int 64))
        (.vArr [.vInt 64 7]) [0x90] =
      .ok ({ wasNilIntf := false, slot := .vArr [.vInt 64 7],
             rvTy := .array 1 (.int 64), rvVal := .vArr [.vInt 64 7] }, [])
    ∧ (GoVal.vArr [.vInt 64 7] ≠ .vArr [zeroVal (.int 64)]) :=
  ⟨rfl, by simp [zeroVal]⟩

/-- Closed witness for the amended fixed-array theorem: capacity 3 with wire
length 5 is a type fault; wire length 0 is a no-op; and scenario C holds:
a capacity-3 array decoding 0x92 0x01 0x02 yields 1, 2, 0. -/
theorem c7_fixed_array_amended_witness :
    decodeValue defaultResolver 5 0x92 ((5 : Nat) : Int) false (.array 3 (.int 64))
        (.vArr [.vInt 64 7, .vInt 64 8, .vInt 64 9]) [] = .error .type
    ∧ decodeValue defaultResolver 5 0x92 ((0 : Nat) : Int) false (.array 3 (.int 64))
        (.vArr [.vInt 64 7, .vInt 64 8, .vInt 64 9]) [] =
      .ok ({ wasNilIntf := false, slot := .vArr [.vInt 64 7, .vInt 64 8, .vInt 64 9],
             rvTy := .array 3 (.int 64),
             rvVal := .vArr [.vInt 64 7, .vInt 64 8, .vInt 64 9] }, [])
    ∧ decodeValue defaultResolver 6 0 (-1) true (.array 3 (.int 64))
        (.vArr [.vInt 64 7, .vInt 64 8, .vInt 64 9]) [0x92, 0x01, 0x02] =
      .ok ({ wasNilIntf := false, slot := .vArr [.vInt 64 1, .vInt 64 2, .vInt 64 0],
             rvTy := .array 3 (.int 64),
             rvVal := .vArr [.vInt 64 1, .vInt 64 2, .vInt 64 0] }, []) := by
  refine ⟨?_, ?_, rfl⟩
  · exact (c7_fixed_array_amended defaultResolver 3 0x92 3 (.int 64)
      [.vInt 64 7, .vInt 64 8, .vInt 64 9] 5 [] (by decide) rfl).1 (by omega) (by omega)
  · exact (c7_fixed_array_amended defaultResolver 3 0x92 3 (.int 64)
      [.vInt 64 7, .vInt 64 8, .vInt 64 9] 0 [] (by decide) rfl).2.1 rfl

/-- Closed witness for the fixnum-signedness theorem at tag 0xe0: a signed
int64 destination stores -32, an unsigned destination faults, and the stored
value is exactly the signed 8-bit reinterpretation. -/
theorem c5_fixnum_fallback_signedness_witness :
    (decodeValue defaultResolver 2 0xe0 (-1) false (.int 64) (.vInt 64 0) [] =
      if (0xe0 : Nat) ≤ 0x7f ∨ (0xe0 ≤ (0xe0 : Nat) ∧ (0xe0 : Nat) ≤ 0xff) then
        .ok ({ wasNilIntf := false, slot := .vInt 64 (wrapSigned 64 (sInt8 0xe0)),
               rvTy := .int 64, rvVal := .vInt 64 (wrapSigned 64 (sInt8 0xe0)) }, [])
      else .error .format)
    ∧ decodeValue defaultResolver 2 0xe0 (-1) false (.uint 64) (.vUint 64 0) [] =
      .error .format
    ∧ wrapSigned 64 (sInt8 0xe0) = sInt8 0xe0
    ∧ sInt8 0xe0 = -32 := by
  have h := c5_fixnum_fallback_signedness defaultResolver 0 (-1) 64 0xe0
    (.vInt 64 0) (.vUint 64 0) (.vBool false) [] (by decide) (by decide) (by decide)
    (by decide) (by decide) (by decide) (by decide)
  refine ⟨h.1, ?_, h.2.2.2.1, by decide⟩
  rw [h.2.1, if_neg (by decide)]

theorem readContainerLen_rawFix (L : Nat) (s : List Nat) (hL : L ≤ 31) :
    readContainerLen (0xa0 + L) false .containerRawBytes s = .ok ((L : Int), s) := by
  rw [readContainerLen_false]
  have hb : (0xa0 + L ≠ 0xda) ∧ (0xa0 + L ≠ 0xdb) ∧ (0xa0 &&& (0xa0 + L) = 0xa0) ∧
      (0xa0 ^^^ (0xa0 + L) = L) := by
    revert hL
    revert L
    decide
  simp [getContainerByteDesc, hb.1, hb.2.1, hb.2.2.1, hb.2.2.2]

theorem nilIntfDecode_rawFix (dam : Resolver) (L : Nat) (s : List Nat) (hL : L ≤ 31) :
    nilIntfDecode dam (0xa0 + L) (-1) false true (.vIntf none) s =
      (match dam none .noKey (L : Int) .containerRawBytes with
       | some (it, iv) =>
         .ok ({ slot := .vIntf (some (it, iv)), inner := some (it, iv), bd := 0xa0 + L,
                ct := .containerRawBytes, containerLen := (L : Int), handled := false }, s)
       | none => .error .reflectPanic) := by
  have h1 : 0xa0 ≤ 0xa0 + L := by omega
  have h2 : 0xa0 + L ≤ 0xbf := by omega
  rcases hdam : dam none .noKey (L : Int) .containerRawBytes with _ | ⟨it, iv⟩ <;>
    simp only [nilIntfDecode, bind, Except.bind, pure, Except.pure,
      Bool.false_eq_true, if_false,
      show ¬(0xa0 + L = 0xc0) from by omega, show ¬(0xa0 + L = 0xc2) from by omega,
      show ¬(0xa0 + L = 0xc3) from by omega, show ¬(0xa0 + L = 0xca) from by omega,
      show ¬(0xa0 + L = 0xcb) from by omega, show ¬(0xa0 + L = 0xcc) from by omega,
      show ¬(0xa0 + L = 0xcd) from by omega, show ¬(0xa0 + L = 0xce) from by omega,
      show ¬(0xa0 + L = 0xcf) from by omega, show ¬(0xa0 + L = 0xd0) from by omega,
      show ¬(0xa0 + L = 0xd1) from by omega, show ¬(0xa0 + L = 0xd2) from by omega,
      show ¬(0xa0 + L = 0xd3) from by omega, if_neg, if_false,
      show (0xa0 + L = 0xda ∨ 0xa0 + L = 0xdb ∨ (0xa0 ≤ 0xa0 + L ∧ 0xa0 + L ≤ 0xbf)) from
        Or.inr (Or.inr ⟨h1, h2⟩), if_pos, if_true,
      show ((-1 : Int) < 0) from by omega, readContainerLen_rawFix L s hL, hdam]

theorem decodeBody_string_raw (dam : Resolver) (n : Nat) (bd : Nat) (L : Nat)
    (t0 : List Nat) (s : List Nat) (hbd : bd ≠ 0xc0) (hs : L ≤ s.length) :
    decodeBody dam (n + 1) bd (L : Int) .string (.vString t0) s =
      .ok (.vString (if L = 0 then t0 else s.take L), if L = 0 then s else s.drop L) := by
  simp only [decodeBody, hbd, if_neg, if_false, bind, Except.bind, pure, Except.pure,
    show ¬((L : Int) < 0) from by omega, Int.toNat_natCast]
  by_cases hL0 : L = 0
  · subst hL0
    simp
  · rw [if_neg (show ¬((L : Int) = 0) from by omega)]
    simp only [readb, hs, if_pos, if_true, if_neg hL0]

theorem decodeBody_bytes_presized (dam : Resolver) (n : Nat) (bd : Nat) (L : Nat)
    (s : List Nat) (hbd : bd ≠ 0xc0) (hs : L ≤ s.length) :
    decodeBody dam (n + 1) bd (L : Int) .bytes (.vBytes false (List.replicate L 0)) s =
      .ok (.vBytes false (if L = 0 then [] else s.take L), if L = 0 then s else s.drop L) := by
  simp only [decodeBody, hbd, if_neg, if_false, bind, Except.bind, pure, Except.pure,
    show ¬((L : Int) < 0) from by omega, Int.toNat_natCast]
  by_cases hL0 : L = 0
  · subst hL0
    simp
  · rw [if_neg (show ¬((L : Int) = 0) from by omega)]
    simp only [List.length_replicate, lt_irrefl, if_false, if_neg, gt_iff_lt,
      readb, hs, if_pos, if_true, List.drop_replicate]
    simp [hL0]

theorem simpleResolve_rawBytes_top (cfg : SimpleDecoderContainerResolver) (len : Int) :
    simpleResolve cfg none .noKey len .containerRawBytes =
      (if cfg.BytesStringLiteral then some (.ptr .string, .vPtr (some (.vString [])))
       else some (.bytes, .vBytes false (List.replicate len.toNat 0))) := rfl

theorem decodeBody_ptr_string_raw (dam : Resolver) (n : Nat) (bd : Nat) (L : Nat)
    (s : List Nat) (hbd : bd ≠ 0xc0) (hs : L ≤ s.length) :
    decodeBody dam (n + 3) bd (L : Int) (.ptr .string) (.vPtr (some (.vString []))) s =
      .ok (.vPtr (some (.vString (if L = 0 then [] else s.take L))),
           if L = 0 then s else s.drop L) := by
  simp only [decodeBody, hbd, if_neg, if_false, bind, Except.bind, pure, Except.pure]
  have h2 : n + 2 = (n + 1) + 1 := rfl
  rw [h2, decodeValue_not_nil dam (n + 1) bd ((L : Nat) : Int) .string (.vString []) s rfl]
  rw [decodeBody_string_raw dam n bd L [] s hbd hs]

theorem decodeValue_nilIntf_rawFix (cfg : SimpleDecoderContainerResolver) (k L : Nat)
    (s : List Nat) (hL : L ≤ 31) (hs : L ≤ s.length) :
    decodeValue (simpleResolve cfg) (k + 4) (0xa0 + L) (-1) false .intf (.vIntf none) s =
      (if cfg.BytesStringLiteral then
        .ok ({ wasNilIntf := true,
               slot := .vIntf (some (.ptr .string,
                 .vPtr (some (.vString (if L = 0 then [] else s.take L))))),
               rvTy := .ptr .string,
               rvVal := .vPtr (some (.vString (if L = 0 then [] else s.take L))) },
             if L = 0 then s else s.drop L)
      else
        .ok ({ wasNilIntf := true,
               slot := .vIntf (some (.bytes, .vBytes false (if L = 0 then [] else s.take L))),
               rvTy := .bytes,
               rvVal := .vBytes false (if L = 0 then [] else s.take L) },
             if L = 0 then s else s.drop L)) := by
  have hbd : 0xa0 + L ≠ 0xc0 := by omega
  rcases hflag : cfg.BytesStringLiteral with _ | _
  · simp only [decodeValue, Bool.false_eq_true, if_false, bind, Except.bind, pure, Except.pure,
      isNilIntfSlot, if_pos, if_true,
      nilIntfDecode_rawFix (simpleResolve cfg) L s hL,
      simpleResolve_rawBytes_top, hflag, Int.toNat_natCast]
    rw [show k + 3 = k + 2 + 1 from rfl,
      decodeBody_bytes_presized (simpleResolve cfg) (k + 2) (0xa0 + L) L s hbd hs]
  · simp only [decodeValue, Bool.false_eq_true, if_false, bind, Except.bind, pure, Except.pure,
      isNilIntfSlot, if_pos, if_true,
      nilIntfDecode_rawFix (simpleResolve cfg) L s hL,
      simpleResolve_rawBytes_top, hflag, Int.toNat_natCast]
    rw [decodeBody_ptr_string_raw (simpleResolve cfg) k (0xa0 + L) L s hbd hs]

/-- C10: decoding a map key of open/dynamic kind whose wire value is a raw
byte sequence (inline tag 0xa0+L) runs the resolver with the empty (no
parent) context: under the simple resolver the result is the same for every
configuration of the three byte-string flags except BytesStringLiteral,
which only chooses whether the key is first materialized as a string
(pointer-to-string destination) or a byte sequence; in both cases the key
returned for insertion is the string of the raw bytes. -/
theorem c10_open_key_resolved_with_empty_context (cfg : SimpleDecoderContainerResolver) (fuel L : Nat) (s : List Nat)
    (hL : L ≤ 31) (hs : L ≤ s.length) :
    decodeMapKey (simpleResolve cfg) (fuel + 6) .intf ((0xa0 + L) :: s) =
      .ok ((.string, .vString (s.take L)), s.drop L) := by
  have htake : (if L = 0 then ([] : List Nat) else s.take L) = s.take L := by
    by_cases h : L = 0
    · subst h; simp
    · simp [h]
  have hdrop : (if L = 0 then s else s.drop L) = s.drop L := by
    by_cases h : L = 0
    · subst h; simp
    · simp [h]
  simp only [decodeMapKey, zeroVal, bind, Except.bind]
  simp only [decodeValueT, bind, Except.bind]
  rw [show fuel + 4 = (fuel + 3) + 1 from rfl,
    decodeValue_readDesc (simpleResolve cfg) (fuel + 3) 0 (-1) .intf (.vIntf none) (0xa0 + L) s]
  rw [show fuel + 3 + 1 = fuel + 4 from rfl,
    decodeValue_nilIntf_rawFix cfg fuel L s hL hs]
  rcases hflag : cfg.BytesStringLiteral with _ | _ <;>
    simp only [hflag, Bool.false_eq_true, if_false, if_true, htake, hdrop] <;>
    rfl

/-- Closed witness for the empty-context key resolution: the wire key
0xa1 0x61 becomes the string key "a" both with BytesStringLiteral cleared
(byte-sequence materialization then coercion) and with the default resolver
(string materialization), while BytesStringMapValue is set in both. -/
theorem c10_open_key_resolved_with_empty_context_witness :
    decodeMapKey (simpleResolve noLiteralCfg) 6 .intf [0xa1, 0x61] =
      .ok ((.string, .vString [0x61]), [])
    ∧ decodeMapKey defaultResolver 6 .intf [0xa1, 0x61] =
      .ok ((.string, .vString [0x61]), []) := by
  constructor
  · exact c10_open_key_resolved_with_empty_context noLiteralCfg 0 1 [0x61]
      (by omega) (by decide)
  · exact c10_open_key_resolved_with_empty_context DefaultDecoderContainerResolver 0 1 [0x61]
      (by omega) (by decide)

/-- The inline-form descriptor byte of a container category for logical
length L: the category's inline mask with the length in the low bits. -/
def inlineTag (ct : ContainerType) (L : Nat) : Nat := (getContainerByteDesc ct).1 + L

/-- The 16-bit length tag of a container category. -/
def tag16 (ct : ContainerType) : Nat := (getContainerByteDesc ct).2.1

/-- The 32-bit length tag of a container category. -/
def tag32 (ct : ContainerType) : Nat := (getContainerByteDesc ct).2.2

/-- The largest length representable in the inline form: 31 for raw bytes
(five low bits), 15 for sequences and maps (four low bits). -/
def inlineMax : ContainerType → Nat
  | .containerRawBytes => 31
  | _ => 15

/-- A length as 2 big-endian bytes. -/
def be2 (L : Nat) : List Nat := [L / 256 % 256, L % 256]

/-- A length as 4 big-endian bytes. -/
def be4 (L : Nat) : List Nat :=
  [L / 16777216 % 256, L / 65536 % 256, L / 256 % 256, L % 256]

theorem readContainerLen_inline (ct : ContainerType) (L : Nat) (s : List Nat)
    (hL : L ≤ inlineMax ct) :
    readContainerLen (inlineTag ct L) false ct s = .ok ((L : Int), s) := by
  rw [readContainerLen_false]
  cases ct
  case containerRawBytes =>
    simp only [inlineMax] at hL
    have hb : (0xa0 + L ≠ 0xda) ∧ (0xa0 + L ≠ 0xdb) ∧ (0xa0 &&& (0xa0 + L) = 0xa0) ∧
        (0xa0 ^^^ (0xa0 + L) = L) := by
      revert hL
      revert L
      decide
    simp [inlineTag, getContainerByteDesc, hb.1, hb.2.1, hb.2.2.1, hb.2.2.2]
  case containerList =>
    simp only [inlineMax] at hL
    have hb : (0x90 + L ≠ 0xdc) ∧ (0x90 + L ≠ 0xdd) ∧ (0x90 &&& (0x90 + L) = 0x90) ∧
        (0x90 ^^^ (0x90 + L) = L) := by
      revert hL
      revert L
      decide
    simp [inlineTag, getContainerByteDesc, hb.1, hb.2.1, hb.2.2.1, hb.2.2.2]
  case containerMap =>
    simp only [inlineMax] at hL
    have hb : (0x80 + L ≠ 0xde) ∧ (0x80 + L ≠ 0xdf) ∧ (0x80 &&& (0x80 + L) = 0x80) ∧
        (0x80 ^^^ (0x80 + L) = L) := by
      revert hL
      revert L
      decide
    simp [inlineTag, getContainerByteDesc, hb.1, hb.2.1, hb.2.2.1, hb.2.2.2]

theorem readContainerLen_tag16 (ct : ContainerType) (L : Nat) (s : List Nat)
    (hL : L < 65536) :
    readContainerLen (tag16 ct) false ct (be2 L ++ s) = .ok ((L : Int), s) := by
  have hval : L / 256 % 256 * 256 + L % 256 = L := by omega
  rw [readContainerLen_false]
  cases ct <;>
    simp [tag16, getContainerByteDesc, be2, readUint16_eq, hval]

theorem readContainerLen_tag32 (ct : ContainerType) (L : Nat) (s : List Nat)
    (hL : L < 4294967296) :
    readContainerLen (tag32 ct) false ct (be4 L ++ s) = .ok ((L : Int), s) := by
  have hval : ((L / 16777216 % 256 * 256 + L / 65536 % 256) * 256 + L / 256 % 256) * 256
      + L % 256 = L := by omega
  rw [readContainerLen_false]
  cases ct <;>
    simp [tag32, getContainerByteDesc, be4, readUint32_eq, hval]

/-- The container category a descriptor byte belongs to, if any, following
the dispatch conditions of nilIntfDecode. -/
def tagCat (bd : Nat) : Option ContainerType :=
  if bd = 0xda ∨ bd = 0xdb ∨ (0xa0 ≤ bd ∧ bd ≤ 0xbf) then some .containerRawBytes
  else if bd = 0xdc ∨ bd = 0xdd ∨ (0x90 ≤ bd ∧ bd ≤ 0x9f) then some .containerList
  else if bd = 0xde ∨ bd = 0xdf ∨ (0x80 ≤ bd ∧ bd ≤ 0x8f) then some .containerMap
  else none

theorem tagCat_inline (ct : ContainerType) (L : Nat) (hL : L ≤ inlineMax ct) :
    tagCat (inlineTag ct L) = some ct := by
  cases ct
  case containerRawBytes =>
    simp only [inlineMax] at hL
    show tagCat (0xa0 + L) = some .containerRawBytes
    unfold tagCat
    rw [if_pos (by omega)]
  case containerList =>
    simp only [inlineMax] at hL
    show tagCat (0x90 + L) = some .containerList
    unfold tagCat
    rw [if_neg (by omega), if_pos (by omega)]
  case containerMap =>
    simp only [inlineMax] at hL
    show tagCat (0x80 + L) = some .containerMap
    unfold tagCat
    rw [if_neg (by omega), if_neg (by omega), if_pos (by omega)]

theorem tagCat_tag16 (ct : ContainerType) : tagCat (tag16 ct) = some ct := by
  cases ct <;> decide

theorem tagCat_tag32 (ct : ContainerType) : tagCat (tag32 ct) = some ct := by
  cases ct <;> decide

theorem tagCat_facts (bd : Nat) (ct : ContainerType) (h : tagCat bd = some ct) :
    (0x80 ≤ bd ∧ bd ≤ 0xbf) ∨ (0xda ≤ bd ∧ bd ≤ 0xdf) := by
  unfold tagCat at h
  split_ifs at h with h1 h2 h3
  · omega
  · omega
  · omega

/-- nilIntfDecode on a container descriptor byte with setContainers set: the
category's length is read (when not already known), the resolver's choice of
destination is installed, and the inner value is additionally returned for
the raw-bytes category (where the source re-points rv to the new value). -/
theorem nilIntfDecode_container (dam : Resolver) (bd : Nat) (cl0 : Int)
    (ct : ContainerType) (rv0 : GoVal) (s s' : List Nat) (L : Int)
    (htag : tagCat bd = some ct)
    (hrd : (if cl0 < 0 then readContainerLen bd false ct s
            else (pure (cl0, s) : Except Fault (Int × List Nat))) = .ok (L, s')) :
    nilIntfDecode dam bd cl0 false true rv0 s =
      (match dam none .noKey L ct with
       | some (it, iv) =>
         .ok ({ slot := .vIntf (some (it, iv)),
                inner := (match ct with
                          | .containerRawBytes => some (it, iv)
                          | _ => none),
                bd := bd, ct := ct, containerLen := L, handled := false }, s')
       | none => .error .reflectPanic) := by
  simp only [pure, Except.pure] at hrd
  unfold tagCat at htag
  split_ifs at htag with h1 h2 h3
  · injection htag with hct
    subst hct
    by_cases hc : cl0 < 0
    · rw [if_pos hc] at hrd
      rcases hdam : dam none .noKey L .containerRawBytes with _ | ⟨it, iv⟩ <;>
        simp only [nilIntfDecode, bind, Except.bind, pure, Except.pure,
          Bool.false_eq_true, if_false,
          show ¬(bd = 0xc0) from by omega, show ¬(bd = 0xc2) from by omega,
          show ¬(bd = 0xc3) from by omega, show ¬(bd = 0xca) from by omega,
          show ¬(bd = 0xcb) from by omega, show ¬(bd = 0xcc) from by omega,
          show ¬(bd = 0xcd) from by omega, show ¬(bd = 0xce) from by omega,
          show ¬(bd = 0xcf) from by omega, show ¬(bd = 0xd0) from by omega,
          show ¬(bd = 0xd1) from by omega, show ¬(bd = 0xd2) from by omega,
          show ¬(bd = 0xd3) from by omega, if_neg, if_false,
          h1, if_pos, if_true, hc, hrd, hdam]
    · rw [if_neg hc] at hrd
      simp only [Except.ok.injEq, Prod.mk.injEq] at hrd
      obtain ⟨rfl, rfl⟩ := hrd
      rcases hdam : dam none .noKey cl0 .containerRawBytes with _ | ⟨it, iv⟩ <;>
        simp only [nilIntfDecode, bind, Except.bind, pure, Except.pure,
          Bool.false_eq_true, if_false,
          show ¬(bd = 0xc0) from by omega, show ¬(bd = 0xc2) from by omega,
          show ¬(bd = 0xc3) from by omega, show ¬(bd = 0xca) from by omega,
          show ¬(bd = 0xcb) from by omega, show ¬(bd = 0xcc) from by omega,
          show ¬(bd = 0xcd) from by omega, show ¬(bd = 0xce) from by omega,
          show ¬(bd = 0xcf) from by omega, show ¬(bd = 0xd0) from by omega,
          show ¬(bd = 0xd1) from by omega, show ¬(bd = 0xd2) from by omega,
          show ¬(bd = 0xd3) from by omega, if_neg, if_false,
          h1, if_pos, if_true, hc, hdam]
  · injection htag with hct
    subst hct
    by_cases hc : cl0 < 0
    · rw [if_pos hc] at hrd
      rcases hdam : dam none .noKey L .containerList with _ | ⟨it, iv⟩ <;>
        simp only [nilIntfDecode, bind, Except.bind, pure, Except.pure,
          Bool.false_eq_true, if_false,
          show ¬(bd = 0xc0) from by omega, show ¬(bd = 0xc2) from by omega,
          show ¬(bd = 0xc3) from by omega, show ¬(bd = 0xca) from by omega,
          show ¬(bd = 0xcb) from by omega, show ¬(bd = 0xcc) from by omega,
          show ¬(bd = 0xcd) from by omega, show ¬(bd = 0xce) from by omega,
          show ¬(bd = 0xcf) from by omega, show ¬(bd = 0xd0) from by omega,
          show ¬(bd = 0xd1) from by omega, show ¬(bd = 0xd2) from by omega,
          show ¬(bd = 0xd3) from by omega, if_neg, if_false,
          h1, h2, if_pos, if_true, hc, hrd, hdam]
    · rw [if_neg hc] at hrd
      simp only [Except.ok.injEq, Prod.mk.injEq] at hrd
      obtain ⟨rfl, rfl⟩ := hrd
      rcases hdam : dam none .noKey cl0 .containerList with _ | ⟨it, iv⟩ <;>
        simp only [nilIntfDecode, bind, Except.bind, pure, Except.pure,
          Bool.false_eq_true, if_false,
          show ¬(bd = 0xc0) from by omega, show ¬(bd = 0xc2) from by omega,
          show ¬(bd = 0xc3) from by omega, show ¬(bd = 0xca) from by omega,
          show ¬(bd = 0xcb) from by omega, show ¬(bd = 0xcc) from by omega,
          show ¬(bd = 0xcd) from by omega, show ¬(bd = 0xce) from by omega,
          show ¬(bd = 0xcf) from by omega, show ¬(bd = 0xd0) from by omega,
          show ¬(bd = 0xd1) from by omega, show ¬(bd = 0xd2) from by omega,
          show ¬(bd = 0xd3) from by omega, if_neg, if_false,
          h1, h2, if_pos, if_true, hc, hdam]
  · injection htag with hct
    subst hct
    by_cases hc : cl0 < 0
    · rw [if_pos hc] at hrd
      rcases hdam : dam none .noKey L .containerMap with _ | ⟨it, iv⟩ <;>
        simp only [nilIntfDecode, bind, Except.bind, pure, Except.pure,
          Bool.false_eq_true, if_false,
          show ¬(bd = 0xc0) from by omega, show ¬(bd = 0xc2) from by omega,
          show ¬(bd = 0xc3) from by omega, show ¬(bd = 0xca) from by omega,
          show ¬(bd = 0xcb) from by omega, show ¬(bd = 0xcc) from by omega,
          show ¬(bd = 0xcd) from by omega, show ¬(bd = 0xce) from by omega,
          show ¬(bd = 0xcf) from by omega, show ¬(bd = 0xd0) from by omega,
          show ¬(bd = 0xd1) from by omega, show ¬(bd = 0xd2) from by omega,
          show ¬(bd = 0xd3) from by omega, if_neg, if_false,
          h1, h2, h3, if_pos, if_true, hc, hrd, hdam]
    · rw [if_neg hc] at hrd
      simp only [Except.ok.injEq, Prod.mk.injEq] at hrd
      obtain ⟨rfl, rfl⟩ := hrd
      rcases hdam : dam none .noKey cl0 .containerMap with _ | ⟨it, iv⟩ <;>
        simp only [nilIntfDecode, bind, Except.bind, pure, Except.pure,
          Bool.false_eq_true, if_false,
          show ¬(bd = 0xc0) from by omega, show ¬(bd = 0xc2) from by omega,
          show ¬(bd = 0xc3) from by omega, show ¬(bd = 0xca) from by omega,
          show ¬(bd = 0xcb) from by omega, show ¬(bd = 0xcc) from by omega,
          show ¬(bd = 0xcd) from by omega, show ¬(bd = 0xce) from by omega,
          show ¬(bd = 0xcf) from by omega, show ¬(bd = 0xd0) from by omega,
          show ¬(bd = 0xd1) from by omega, show ¬(bd = 0xd2) from by omega,
          show ¬(bd = 0xd3) from by omega, if_neg, if_false,
          h1, h2, h3, if_pos, if_true, hc, hdam]

/-- Destination kinds whose decodeBody arm, once the container length is
known, never consults the descriptor byte again. -/
def lenOnlyKind : GoType → Bool
  | .string => true
  | .bytes => true
  | .slice _ => true
  | .array _ _ => true
  | .struct _ => true
  | .map _ _ => true
  | _ => false

/-- With the container length already known, decodeBody on a length-only
kind gives the same result for any two non-0xc0 descriptor bytes. -/
theorem decodeBody_lenOnly (dam : Resolver) (fuel : Nat) (b1 b2 : Nat) (cl : Int)
    (ty : GoType) (v : GoVal) (s : List Nat) (hty : lenOnlyKind ty = true)
    (h1 : b1 ≠ 0xc0) (h2 : b2 ≠ 0xc0) (hcl : ¬cl < 0) :
    decodeBody dam fuel b1 cl ty v s = decodeBody dam fuel b2 cl ty v s := by
  match fuel with
  | 0 => rfl
  | n + 1 =>
    cases ty
    case string => simp only [decodeBody, if_neg h1, if_neg h2, if_neg hcl]
    case bytes => simp only [decodeBody, if_neg h1, if_neg h2, if_neg hcl]
    case slice => simp only [decodeBody, if_neg h1, if_neg h2, if_neg hcl]
    case array => simp only [decodeBody, if_neg h1, if_neg h2, if_neg hcl]
    case struct => simp only [decodeBody, if_neg h1, if_neg h2, if_neg hcl]
    case map => simp only [decodeBody, if_neg h1, if_neg h2, if_neg hcl]
    all_goals exact absurd hty (by simp [lenOnlyKind])

/-- decodeValue with the length already known, on a length-only kind: the
descriptor byte is irrelevant (it is neither 0xc0 nor re-read). -/
theorem decodeValue_lenOnly (dam : Resolver) (fuel : Nat) (b1 b2 : Nat) (cl : Int)
    (ty : GoType) (v : GoVal) (s : List Nat) (hty : lenOnlyKind ty = true)
    (h1 : b1 ≠ 0xc0) (h2 : b2 ≠ 0xc0) (hcl : ¬cl < 0) :
    decodeValue dam fuel b1 cl false ty v s = decodeValue dam fuel b2 cl false ty v s := by
  match fuel with
  | 0 => rfl
  | n + 1 =>
    have hnil : isNilIntfSlot ty v = false := by
      cases ty <;> first | rfl | exact absurd hty (by simp [lenOnlyKind])
    rw [decodeValue_not_nil dam n b1 cl ty v s hnil,
      decodeValue_not_nil dam n b2 cl ty v s hnil,
      decodeBody_lenOnly dam n b1 b2 cl ty v s hty h1 h2 hcl]

/-- The descriptor-byte irrelevance of decodeValue_lenOnly lifted through a
non-nil interface slot holding a length-only kind. -/
theorem decodeBody_intf_lenOnly (dam : Resolver) (fuel : Nat) (b1 b2 : Nat) (cl : Int)
    (dt : GoType) (dv : GoVal) (s : List Nat) (hty : lenOnlyKind dt = true)
    (h1 : b1 ≠ 0xc0) (h2 : b2 ≠ 0xc0) (hcl : ¬cl < 0) :
    decodeBody dam fuel b1 cl .intf (.vIntf (some (dt, dv))) s =
      decodeBody dam fuel b2 cl .intf (.vIntf (some (dt, dv))) s := by
  match fuel with
  | 0 => rfl
  | n + 1 =>
    simp only [decodeBody, if_neg h1, if_neg h2, bind, Except.bind,
      decodeValue_lenOnly dam n b1 b2 cl dt dv s hty h1 h2 hcl]

/-- The descriptor-byte irrelevance lifted through a pointer-to-string slot
(the raw-bytes destination installed by the simple resolver). -/
theorem decodeBody_ptrString_lenOnly (dam : Resolver) (fuel : Nat) (b1 b2 : Nat)
    (cl : Int) (s : List Nat) (h1 : b1 ≠ 0xc0) (h2 : b2 ≠ 0xc0) (hcl : ¬cl < 0) :
    decodeBody dam fuel b1 cl (.ptr .string) (.vPtr (some (.vString []))) s =
      decodeBody dam fuel b2 cl (.ptr .string) (.vPtr (some (.vString []))) s := by
  match fuel with
  | 0 => rfl
  | n + 1 =>
    simp only [decodeBody, if_neg h1, if_neg h2, bind, Except.bind,
      decodeValue_lenOnly dam n b1 b2 cl .string (.vString []) s rfl h1 h2 hcl]

/-- The container category decodeBody reads its length for, for each
length-consuming destination kind. -/
def ctOf : GoType → ContainerType
  | .string => .containerRawBytes
  | .bytes => .containerRawBytes
  | .slice _ => .containerList
  | .array _ _ => .containerList
  | _ => .containerMap

/-- decodeBody on a length-only kind with the length still unread: reading
the length from the stream and handing the length over directly agree. -/
theorem decodeBody_lenOnly_read (dam : Resolver) (fuel : Nat) (bd : Nat)
    (ty : GoType) (v : GoVal) (s body : List Nat) (L : Int)
    (hty : lenOnlyKind ty = true) (hbd : bd ≠ 0xc0) (hL : ¬L < 0)
    (hr : readContainerLen bd false (ctOf ty) s = .ok (L, body)) :
    decodeBody dam fuel bd (-1) ty v s = decodeBody dam fuel bd L ty v body := by
  have hm1 : ((-1 : Int) < 0) := by decide
  match fuel with
  | 0 => rfl
  | n + 1 =>
    cases ty
    case string =>
      simp only [ctOf] at hr
      simp only [decodeBody, if_neg hbd, if_pos hm1, if_neg hL, hr, bind, Except.bind,
        pure, Except.pure]
    case bytes =>
      simp only [ctOf] at hr
      simp only [decodeBody, if_neg hbd, if_pos hm1, if_neg hL, hr, bind, Except.bind,
        pure, Except.pure]
    case slice =>
      simp only [ctOf] at hr
      simp only [decodeBody, if_neg hbd, if_pos hm1, if_neg hL, hr, bind, Except.bind,
        pure, Except.pure]
    case array =>
      simp only [ctOf] at hr
      simp only [decodeBody, if_neg hbd, if_pos hm1, if_neg hL, hr, bind, Except.bind,
        pure, Except.pure]
    case struct =>
      simp only [ctOf] at hr
      simp only [decodeBody, if_neg hbd, if_pos hm1, if_neg hL, hr, bind, Except.bind,
        pure, Except.pure]
    case map =>
      simp only [ctOf] at hr
      simp only [decodeBody, if_neg hbd, if_pos hm1, if_neg hL, hr, bind, Except.bind,
        pure, Except.pure]
    all_goals exact absurd hty (by simp [lenOnlyKind])

/-- The destination kinds of the encoding-width-independence claim, each
matched with its container category; an unset open interface accepts every
category. -/
def widthIndepDest : GoType → GoVal → ContainerType → Bool
  | .string, _, .containerRawBytes => true
  | .bytes, _, .containerRawBytes => true
  | .slice _, _, .containerList => true
  | .array _ _, _, .containerList => true
  | .time, _, .containerList => true
  | .struct _, _, .containerMap => true
  | .map _ _, _, .containerMap => true
  | .intf, .vIntf none, _ => true
  | _, _, _ => false

/-- Two descriptor-byte/stream presentations of the same container category
and logical length decode identically into every matched or open
destination, under a simple resolver with no configured map or slice type. -/
theorem decodeValue_width_agree (cfg : SimpleDecoderContainerResolver)
    (hM : cfg.MapType = none) (hS : cfg.SliceType = none) :
    ∀ fuel (ty : GoType) (v : GoVal) (ct : ContainerType) (L : Nat)
      (body sA sB : List Nat) (bdA bdB : Nat),
      widthIndepDest ty v ct = true →
      tagCat bdA = some ct → tagCat bdB = some ct →
      readContainerLen bdA false ct sA = .ok ((L : Int), body) →
      readContainerLen bdB false ct sB = .ok ((L : Int), body) →
      decodeValue (simpleResolve cfg) fuel bdA (-1) false ty v sA =
        decodeValue (simpleResolve cfg) fuel bdB (-1) false ty v sB := by
  intro fuel
  induction fuel using Nat.strong_induction_on with
  | _ fuel IH =>
  intro ty v ct L body sA sB bdA bdB hdest hA hB hrA hrB
  cases fuel with
  | zero => rfl
  | succ n =>
  have hrangeA := tagCat_facts bdA ct hA
  have hrangeB := tagCat_facts bdB ct hB
  have hneA : bdA ≠ 0xc0 := by omega
  have hneB : bdB ≠ 0xc0 := by omega
  have hL' : ¬((L : Int) < 0) := by omega
  cases ty
  case string =>
    cases ct
    case containerRawBytes =>
      rw [decodeValue_not_nil (simpleResolve cfg) n bdA (-1) .string v sA (by cases v <;> rfl),
        decodeValue_not_nil (simpleResolve cfg) n bdB (-1) .string v sB (by cases v <;> rfl),
        decodeBody_lenOnly_read (simpleResolve cfg) n bdA .string v sA body ((L : Int)) rfl hneA hL' hrA,
        decodeBody_lenOnly_read (simpleResolve cfg) n bdB .string v sB body ((L : Int)) rfl hneB hL' hrB,
        decodeBody_lenOnly (simpleResolve cfg) n bdA bdB ((L : Int)) .string v body rfl hneA hneB hL']
    all_goals exact absurd hdest (by simp [widthIndepDest])
  case bytes =>
    cases ct
    case containerRawBytes =>
      rw [decodeValue_not_nil (simpleResolve cfg) n bdA (-1) .bytes v sA (by cases v <;> rfl),
        decodeValue_not_nil (simpleResolve cfg) n bdB (-1) .bytes v sB (by cases v <;> rfl),
        decodeBody_lenOnly_read (simpleResolve cfg) n bdA .bytes v sA body ((L : Int)) rfl hneA hL' hrA,
        decodeBody_lenOnly_read (simpleResolve cfg) n bdB .bytes v sB body ((L : Int)) rfl hneB hL' hrB,
        decodeBody_lenOnly (simpleResolve cfg) n bdA bdB ((L : Int)) .bytes v body rfl hneA hneB hL']
    all_goals exact absurd hdest (by simp [widthIndepDest])
  case slice e =>
    cases ct
    case containerList =>
      rw [decodeValue_not_nil (simpleResolve cfg) n bdA (-1) (.slice e) v sA (by cases v <;> rfl),
        decodeValue_not_nil (simpleResolve cfg) n bdB (-1) (.slice e) v sB (by cases v <;> rfl),
        decodeBody_lenOnly_read (simpleResolve cfg) n bdA (.slice e) v sA body ((L : Int)) rfl hneA hL' hrA,
        decodeBody_lenOnly_read (simpleResolve cfg) n bdB (.slice e) v sB body ((L : Int)) rfl hneB hL' hrB,
        decodeBody_lenOnly (simpleResolve cfg) n bdA bdB ((L : Int)) (.slice e) v body rfl hneA hneB hL']
    all_goals exact absurd hdest (by simp [widthIndepDest])
  case array k e =>
    cases ct
    case containerList =>
      rw [decodeValue_not_nil (simpleResolve cfg) n bdA (-1) (.array k e) v sA (by cases v <;> rfl),
        decodeValue_not_nil (simpleResolve cfg) n bdB (-1) (.array k e) v sB (by cases v <;> rfl),
        decodeBody_lenOnly_read (simpleResolve cfg) n bdA (.array k e) v sA body ((L : Int)) rfl hneA hL' hrA,
        decodeBody_lenOnly_read (simpleResolve cfg) n bdB (.array k e) v sB body ((L : Int)) rfl hneB hL' hrB,
        decodeBody_lenOnly (simpleResolve cfg) n bdA bdB ((L : Int)) (.array k e) v body rfl hneA hneB hL']
    all_goals exact absurd hdest (by simp [widthIndepDest])
  case struct fs =>
    cases ct
    case containerMap =>
      rw [decodeValue_not_nil (simpleResolve cfg) n bdA (-1) (.struct fs) v sA (by cases v <;> rfl),
        decodeValue_not_nil (simpleResolve cfg) n bdB (-1) (.struct fs) v sB (by cases v <;> rfl),
        decodeBody_lenOnly_read (simpleResolve cfg) n bdA (.struct fs) v sA body ((L : Int)) rfl hneA hL' hrA,
        decodeBody_lenOnly_read (simpleResolve cfg) n bdB (.struct fs) v sB body ((L : Int)) rfl hneB hL' hrB,
        decodeBody_lenOnly (simpleResolve cfg) n bdA bdB ((L : Int)) (.struct fs) v body rfl hneA hneB hL']
    all_goals exact absurd hdest (by simp [widthIndepDest])
  case map kt vt =>
    cases ct
    case containerMap =>
      rw [decodeValue_not_nil (simpleResolve cfg) n bdA (-1) (.map kt vt) v sA (by cases v <;> rfl),
        decodeValue_not_nil (simpleResolve cfg) n bdB (-1) (.map kt vt) v sB (by cases v <;> rfl),
        decodeBody_lenOnly_read (simpleResolve cfg) n bdA (.map kt vt) v sA body ((L : Int)) rfl hneA hL' hrA,
        decodeBody_lenOnly_read (simpleResolve cfg) n bdB (.map kt vt) v sB body ((L : Int)) rfl hneB hL' hrB,
        decodeBody_lenOnly (simpleResolve cfg) n bdA bdB ((L : Int)) (.map kt vt) v body rfl hneA hneB hL']
    all_goals exact absurd hdest (by simp [widthIndepDest])
  case time =>
    cases ct
    case containerList =>
      rw [decodeValue_not_nil (simpleResolve cfg) n bdA (-1) .time v sA (by cases v <;> rfl),
        decodeValue_not_nil (simpleResolve cfg) n bdB (-1) .time v sB (by cases v <;> rfl)]
      have hinner : decodeBody (simpleResolve cfg) n bdA (-1) .time v sA =
          decodeBody (simpleResolve cfg) n bdB (-1) .time v sB := by
        cases n with
        | zero => rfl
        | succ m =>
          have harr := IH m (by omega) (.array 2 (.int 64)) (.vArr [.vInt 64 0, .vInt 64 0])
            .containerList L body sA sB bdA bdB rfl hA hB hrA hrB
          simp only [decodeBody, if_neg hneA, if_neg hneB, bind, Except.bind, harr]
      rw [hinner]
    all_goals exact absurd hdest (by simp [widthIndepDest])
  case intf =>
    cases v
    case vIntf o =>
      cases o with
      | some p => exact absurd hdest (by cases ct <;> simp [widthIndepDest])
      | none =>
        have hnidA := nilIntfDecode_container (simpleResolve cfg) bdA (-1) ct
          (.vIntf none) sA body ((L : Int)) hA
          (by rw [if_pos (by decide : ((-1 : Int) < 0))]; exact hrA)
        have hnidB := nilIntfDecode_container (simpleResolve cfg) bdB (-1) ct
          (.vIntf none) sB body ((L : Int)) hB
          (by rw [if_pos (by decide : ((-1 : Int) < 0))]; exact hrB)
        cases ct
        case containerRawBytes =>
          rcases hflag : cfg.BytesStringLiteral with _ | _
          · simp only [decodeValue, bind, Except.bind, pure, Except.pure,
              Bool.false_eq_true, if_false, isNilIntfSlot, if_pos, if_true,
              hnidA, hnidB, simpleResolve_rawBytes_top, hflag, Int.toNat_natCast,
              decodeBody_lenOnly (simpleResolve cfg) n bdA bdB ((L : Int))
                .bytes (.vBytes false (List.replicate L 0)) body rfl hneA hneB hL']
          · simp only [decodeValue, bind, Except.bind, pure, Except.pure,
              Bool.false_eq_true, if_false, isNilIntfSlot, if_pos, if_true,
              hnidA, hnidB, simpleResolve_rawBytes_top, hflag,
              decodeBody_ptrString_lenOnly (simpleResolve cfg) n bdA bdB ((L : Int))
                body hneA hneB hL']
        case containerList =>
          have hres : simpleResolve cfg none .noKey ((L : Int)) .containerList =
              some (.slice .intf, .vSlice false (zeroRep L .intf) L) := by
            simp [simpleResolve, SimpleDecoderContainerResolver.DecoderContainer, hS,
              makeSliceVal, Int.toNat_natCast]
          simp only [decodeValue, bind, Except.bind, pure, Except.pure,
            Bool.false_eq_true, if_false, isNilIntfSlot, if_pos, if_true,
            hnidA, hnidB, hres,
            decodeBody_intf_lenOnly (simpleResolve cfg) n bdA bdB ((L : Int))
              (.slice .intf) (.vSlice false (zeroRep L .intf) L) body rfl hneA hneB hL']
        case containerMap =>
          have hres : simpleResolve cfg none .noKey ((L : Int)) .containerMap =
              some (.map .intf .intf, .vMap false []) := by
            simp [simpleResolve, SimpleDecoderContainerResolver.DecoderContainer, hM]
          simp only [decodeValue, bind, Except.bind, pure, Except.pure,
            Bool.false_eq_true, if_false, isNilIntfSlot, if_pos, if_true,
            hnidA, hnidB, hres,
            decodeBody_intf_lenOnly (simpleResolve cfg) n bdA bdB ((L : Int))
              (.map .intf .intf) (.vMap false []) body rfl hneA hneB hL']
    all_goals exact absurd hdest (by cases ct <;> simp [widthIndepDest])
  all_goals exact absurd hdest (by cases ct <;> simp [widthIndepDest])

/-- C3: encoding-width independence.  For every container category, every
logical length L representable in the inline encoding, and every matched or
open destination, decoding a payload that carries L in the inline form, the
16-bit form (16-bit tag followed by L as 2 big-endian bytes), or the 32-bit
form (32-bit tag followed by L as 4 big-endian bytes), followed by the same
body bytes, yields identical decoded results (under a simple resolver with
no configured map or slice type, so that open destinations resolve to the
default containers). -/
theorem c3_encoding_width_independence (cfg : SimpleDecoderContainerResolver)
    (hM : cfg.MapType = none) (hS : cfg.SliceType = none) (fuel : Nat)
    (ty : GoType) (v : GoVal) (ct : ContainerType) (L : Nat) (body : List Nat)
    (hdest : widthIndepDest ty v ct = true) (hL : L ≤ inlineMax ct) :
    (decodeValue (simpleResolve cfg) fuel (inlineTag ct L) (-1) false ty v body =
      decodeValue (simpleResolve cfg) fuel (tag16 ct) (-1) false ty v (be2 L ++ body))
    ∧ (decodeValue (simpleResolve cfg) fuel (inlineTag ct L) (-1) false ty v body =
      decodeValue (simpleResolve cfg) fuel (tag32 ct) (-1) false ty v (be4 L ++ body)) := by
  have h16 : L < 65536 := by
    cases ct <;> simp only [inlineMax] at hL <;> omega
  have h32 : L < 4294967296 := by
    cases ct <;> simp only [inlineMax] at hL <;> omega
  constructor
  · exact decodeValue_width_agree cfg hM hS fuel ty v ct L body body (be2 L ++ body)
      (inlineTag ct L) (tag16 ct) hdest (tagCat_inline ct L hL) (tagCat_tag16 ct)
      (readContainerLen_inline ct L body hL) (readContainerLen_tag16 ct L body h16)
  · exact decodeValue_width_agree cfg hM hS fuel ty v ct L body body (be4 L ++ body)
      (inlineTag ct L) (tag32 ct) hdest (tagCat_inline ct L hL) (tagCat_tag32 ct)
      (readContainerLen_inline ct L body hL) (readContainerLen_tag32 ct L body h32)

/-- Closed witness for encoding-width independence: a sequence of one
element carried as fixarray 0x91, as 0xdc 0x00 0x01, and as
0xdd 0x00 0x00 0x00 0x01, each followed by the body byte 0x05, decodes
identically into a nil slice of open elements under the default resolver. -/
theorem c3_encoding_width_independence_witness :
    (decodeValue defaultResolver 8 0x91 (-1) false (.slice .intf) (.vSlice true [] 0)
        [0x05] =
      decodeValue defaultResolver 8 0xdc (-1) false (.slice .intf) (.vSlice true [] 0)
        [0x00, 0x01, 0x05])
    ∧ (decodeValue defaultResolver 8 0x91 (-1) false (.slice .intf) (.vSlice true [] 0)
        [0x05] =
      decodeValue defaultResolver 8 0xdd (-1) false (.slice .intf) (.vSlice true [] 0)
        [0x00, 0x00, 0x00, 0x01, 0x05]) :=
  c3_encoding_width_independence DefaultDecoderContainerResolver rfl rfl 8 (.slice .intf)
    (.vSlice true [] 0) .containerList 1 [0x05] rfl (by decide)
